import Mathlib

/-!
Verification of the browser_tail repository (Go) against its natural-language
specification. The Go sources under `internal/logger`, `internal/events`,
`internal/monitor` and `internal/redact` are shallowly embedded below: pure Go
functions become Lean functions over `String` / `List Char`, the mutable
structures (tab registry, file manager, tab monitor) become explicit state
records transformed by pure step functions, and fallible operations return
`Option` / pair-with-error results. Byte strings are modelled as `List Char`
(the logged data is ASCII-dominated; byte counts are modelled as character
counts). Wall-clock timestamps (Go `time.Now()`) are modelled as explicit
string parameters. OS-level I/O failures (open/write/fsync errors) are outside
the model; the file system is a map from file key to its current on-disk
content, and each buffered writer tracks its unflushed bytes, its fsync
watermark and its pending-flush-timer flag, exactly following
`file_manager.go`.
-/

namespace BrowserTail

/-- Byte strings (Go `string` contents, file contents, buffers) are modelled
as lists of characters. -/
abbrev Str := List Char

/-! ## Association-list helpers

Go `map[string]V` values are modelled as association lists with unique keys;
`lookupA` returns the first binding, `setA` replaces or appends, `removeA`
deletes every binding of the key (Go `delete`). -/

/-- Lookup in an association list (model of Go map indexing). -/
def lookupA {α : Type} : List (String × α) → String → Option α
  | [], _ => none
  | (k, v) :: rest, key => if k = key then some v else lookupA rest key

/-- Replace the binding of `key` (or append one) in an association list
(model of Go map assignment). -/
def setA {α : Type} : List (String × α) → String → α → List (String × α)
  | [], key, v => [(key, v)]
  | (k, w) :: rest, key, v =>
    if k = key then (key, v) :: rest else (k, w) :: setA rest key v

/-- Remove every binding of `key` (model of Go `delete`). -/
def removeA {α : Type} : List (String × α) → String → List (String × α)
  | [], _ => []
  | (k, w) :: rest, key =>
    if k = key then removeA rest key else (k, w) :: removeA rest key

/-! ## `internal/logger/path.go` -/

/-- Model of Go `string(r)` for a rune value `n ≥ 0`: the one-character string
of the code point when it is a valid Unicode scalar value, and `"�"`
(the replacement character) otherwise, as specified for Go string conversion. -/
def runeToString (n : Nat) : String :=
  if n < 0xD800 ∨ (0xDFFF < n ∧ n < 0x110000) then String.singleton (Char.ofNat n)
  else String.singleton (Char.ofNat 0xFFFD)

/-- Model of Go `strings.TrimPrefix`. -/
def trimPrefixStr (pre s : String) : String :=
  if pre.toList.isPrefixOf s.toList then String.mk (s.toList.drop pre.toList.length) else s

/-- Embedding of `GenerateTabID` (path.go:34-37) applied to the `n`-th value
of the atomic counter: `"tab-" + strings.TrimPrefix(string(rune('0'+id)), "0")`. -/
def generateTabID (n : Nat) : String :=
  "tab-" ++ trimPrefixStr "0" (runeToString (48 + n))

/-- Decimal tab name the spec describes: `tab-` followed by the decimal
rendering of the counter ("Modelled from the spec" side of claim C1). -/
def specTabID (n : Nat) : String :=
  "tab-" ++ Nat.repr n

/-! ### TabRegistry (path.go:39-94)

The registry pairs the process-global atomic counter `tabCounter` with the
`targetToTab` map. `GetOrCreateTabID` either returns the existing binding or
increments the counter, generates a tab ID and stores the binding;
`RemoveTarget` deletes the binding. The double-checked locking in the source
collapses to the single functional branch here. -/

/-- State of `TabRegistry` together with the package-level `tabCounter`. -/
structure TabRegistry where
  counter : Nat
  targetToTab : List (String × String)
deriving DecidableEq

/-- Registry at process start: counter zero, no bindings. -/
def regInit : TabRegistry := ⟨0, []⟩

/-- Embedding of `TabRegistry.GetOrCreateTabID` (path.go:56-75). -/
def getOrCreateTabID (r : TabRegistry) (targetID : String) : String × TabRegistry :=
  match lookupA r.targetToTab targetID with
  | some tabID => (tabID, r)
  | none =>
    let c := r.counter + 1
    let tabID := generateTabID c
    (tabID, ⟨c, (targetID, tabID) :: r.targetToTab⟩)

/-- Embedding of `TabRegistry.GetTabID` (path.go:78-82); the Go version
returns the map's zero value `""` when absent, modelled by `Option`. -/
def getTabID (r : TabRegistry) (targetID : String) : Option String :=
  lookupA r.targetToTab targetID

/-- Embedding of `TabRegistry.RemoveTarget` (path.go:85-89). -/
def removeTarget (r : TabRegistry) (targetID : String) : TabRegistry :=
  { r with targetToTab := removeA r.targetToTab targetID }

/-- One registry call, for reasoning about whole call sequences. -/
inductive RegOp where
  | getOp (targetID : String)
  | removeOp (targetID : String)
deriving DecidableEq

/-- Apply one registry call to the state. -/
def regStep (r : TabRegistry) : RegOp → TabRegistry
  | .getOp t => (getOrCreateTabID r t).2
  | .removeOp t => removeTarget r t

/-- Run a sequence of registry calls. -/
def runOps (r : TabRegistry) (ops : List RegOp) : TabRegistry :=
  ops.foldl regStep r

/-- Registry state instrumented with the history of every (TargetID, TabID)
assignment ever made — the ghost record over which "never assigned the same
TabID" is stated. -/
structure RegTrace where
  reg : TabRegistry
  hist : List (String × String)

/-- Instrumented process-start state. -/
def traceInit : RegTrace := ⟨regInit, []⟩

/-- Instrumented step: identical to `regStep` on the registry, and a fresh
assignment is also recorded in the history. -/
def traceStep (t : RegTrace) : RegOp → RegTrace
  | .getOp tid =>
    match lookupA t.reg.targetToTab tid with
    | some _ => { t with reg := (getOrCreateTabID t.reg tid).2 }
    | none => { reg := (getOrCreateTabID t.reg tid).2,
                hist := (tid, (getOrCreateTabID t.reg tid).1) :: t.hist }
  | .removeOp tid => { t with reg := removeTarget t.reg tid }

/-- Run a sequence of instrumented registry calls. -/
def runTrace (t : RegTrace) (ops : List RegOp) : RegTrace :=
  ops.foldl traceStep t

/-- Registry invariant: the counter has not left the range on which the
(buggy) single-rune tab-name rendering is still injective, every assignment
in the history carries a tab name generated from some counter value at most
the current one, no tab name was ever assigned twice, and the live map is a
sub-collection of the history. -/
def RegInvP (t : RegTrace) : Prop :=
  t.reg.counter ≤ 55247 ∧
    (∀ p ∈ t.hist, ∃ c, 1 ≤ c ∧ c ≤ t.reg.counter ∧ p.2 = generateTabID c) ∧
    (t.hist.map Prod.snd).Nodup ∧
    (∀ q ∈ t.reg.targetToTab, q ∈ t.hist)

/-! ### Site extraction (path.go:96-167) -/

/-- Constant `UnknownSite` (path.go:15). -/
def unknownSite : String := "unknown"

/-- Characters the `strings.NewReplacer` in `SanitizeSiteName` maps to `_`
(path.go:117-128). -/
def invalidFsChar (c : Char) : Bool :=
  c = '/' ∨ c = '\\' ∨ c = ':' ∨ c = '*' ∨ c = '?' ∨ c = '"' ∨ c = '<' ∨ c = '>' ∨
    c = '|' ∨ c = ' '

/-- Replace every invalid filesystem character by `_` (each pattern of the
replacer is a single character, so the replacer is a character map). -/
def replaceInvalid (l : Str) : Str :=
  l.map fun c => if invalidFsChar c then '_' else c

/-- Hosts that keep their port in the directory name (path.go:109, 162). -/
def isLoopbackHost (h : Str) : Bool :=
  h = "localhost".toList ∨ h = "127.0.0.1".toList ∨ h = "0.0.0.0".toList

/-- Embedding of `SanitizeSiteName` (path.go:97-137) on character lists:
empty input becomes `unknown`; a name containing `:` is split at the first
colon (`strings.SplitN(hostname, ":", 2)`), keeping `host_port` for loopback
hosts and just `host` otherwise; then invalid characters are replaced and the
result truncated to 255. -/
def sanitizeCore (l : Str) : Str :=
  if l = [] then unknownSite.toList
  else
    let joined :=
      if l.contains ':' then
        let host := l.takeWhile (fun c => ¬ (c = ':'))
        let port := (l.dropWhile (fun c => ¬ (c = ':'))).drop 1
        if isLoopbackHost host then host ++ '_' :: port else host
      else l
    (replaceInvalid joined).take 255

/-- Embedding of `SanitizeSiteName` on `String`. -/
def sanitizeSiteName (hostname : String) : String :=
  String.mk (sanitizeCore hostname.toList)

/-- Result of Go `url.Parse` as far as `ExtractSite` consumes it:
`u.Hostname()` (brackets and port stripped), `u.Port()`, `u.Scheme`,
`u.Opaque`. A parse error — and the empty-input early return, which also
yields `unknown` — is the `none` case of the `Option` below. -/
structure URLParts where
  hostname : String
  port : String
  scheme : String
  opaquePart : String
deriving DecidableEq

/-- Embedding of `ExtractSite` (path.go:140-167) over the parse outcome. -/
def extractSite : Option URLParts → String
  | none => unknownSite
  | some u =>
    if u.hostname = "" then
      if ¬ (u.scheme = "") then sanitizeSiteName (u.scheme ++ "_" ++ u.opaquePart)
      else unknownSite
    else if ¬ (u.port = "") ∧ isLoopbackHost u.hostname.toList then
      sanitizeSiteName (u.hostname ++ ":" ++ u.port)
    else sanitizeSiteName u.hostname

/-- Sanitization exactly as the claim words it: replace each of
`/ \ : * ? " < > |` and space by `_` and truncate to 255 — with no other
transformation. Written from the spec text, for comparison with the code. -/
def specReplaceTruncate (s : String) : String :=
  String.mk ((replaceInvalid s.toList).take 255)

/-- Site extraction exactly as the claim words it: the four-way case analysis
followed by `specReplaceTruncate`. Written from the spec text, for comparison
with the code. -/
def specExtractSite : Option URLParts → String
  | none => unknownSite
  | some u =>
    if isLoopbackHost u.hostname.toList ∧ ¬ (u.port = "") then
      specReplaceTruncate (u.hostname ++ "_" ++ u.port)
    else if ¬ (u.hostname = "") then specReplaceTruncate u.hostname
    else if ¬ (u.scheme = "") then specReplaceTruncate (u.scheme ++ "_" ++ u.opaquePart)
    else unknownSite

/-- Raw (pre-sanitization) site of the amended claim: loopback host with a
port joins host and port with `:` (the first colon is what the sanitizer
rewrites to `_`), any other non-empty host is taken whole, a scheme without a
host gives `scheme_opaque`, and otherwise `unknown`. -/
def amendedRawSite (u : URLParts) : String :=
  if u.hostname = "" then
    if ¬ (u.scheme = "") then u.scheme ++ "_" ++ u.opaquePart else unknownSite
  else if ¬ (u.port = "") ∧ isLoopbackHost u.hostname.toList then
    u.hostname ++ ":" ++ u.port
  else u.hostname

/-- Site extraction as amended: the case analysis above followed by one pass
of the full sanitizer (first-colon split with loopback port join, character
replacement, truncation to 255). -/
def amendedExtractSite : Option URLParts → String
  | none => unknownSite
  | some u => sanitizeSiteName (amendedRawSite u)

/-! ## `internal/events/types.go` -/

/-- Model of the Go `interface{}` values stored in an event's `data` map, as
`encoding/json` sees them: JSON-marshalable values (with numbers restricted to
the integers — floating point is outside this model) plus `unser`, standing
for any value `json.Marshal` rejects (channels, functions, NaN, …). -/
inductive JValue where
  | null
  | bool (b : Bool)
  | num (i : Int)
  | str (s : Str)
  | arr (elems : List JValue)
  | obj (fields : List (Str × JValue))
  | unser (desc : String)

/-- Digit character of `d < 10`. -/
def digitChar (d : Nat) : Char := Char.ofNat (48 + d)

/-- Decimal digit characters of `n`, most significant first; the fuel (any
bound on the digit count, `n` itself suffices) keeps the recursion
structural. -/
def natCharsAux : Nat → Nat → Str
  | 0, _ => []
  | fuel + 1, n => if n = 0 then [] else natCharsAux fuel (n / 10) ++ [digitChar (n % 10)]

/-- Decimal characters of a natural number, most significant digit first. -/
def natChars (n : Nat) : Str :=
  if n = 0 then ['0'] else natCharsAux n n

/-- Decimal characters of an integer. -/
def intChars (i : Int) : Str :=
  if i < 0 then '-' :: natChars i.natAbs else natChars i.natAbs

/-- JSON string-body escaping: `"` and `\` get a backslash. (Go's encoder
escapes a few more characters; the model keeps the codec's defining property —
the parser inverts it — which is all the redaction layer relies on.) -/
def escapeChars : Str → Str
  | [] => []
  | c :: rest =>
    if c = '"' ∨ c = '\\' then '\\' :: c :: escapeChars rest
    else c :: escapeChars rest

/-- A JSON string literal: quote, escaped body, quote. -/
def quoteChars (s : Str) : Str :=
  '"' :: (escapeChars s ++ ['"'])

/-! Model of `json.Marshal` on `JValue` (`none` = marshal error, exactly when
an `unser` value occurs). Objects render their fields in order; arrays and
objects render as head element/member followed by comma-prefixed tails. -/
mutual

def marshalValue : JValue → Option Str
  | .null => some ("null".toList)
  | .bool b => some ((if b then "true" else "false").toList)
  | .num i => some (intChars i)
  | .str s => some (quoteChars s)
  | .arr vs =>
    match marshalElems vs with
    | none => none
    | some body => some ('[' :: (body ++ [']']))
  | .obj fs =>
    match marshalFields fs with
    | none => none
    | some body => some ('\x7b' :: (body ++ ['\x7d']))
  | .unser _ => none

def marshalElems : List JValue → Option Str
  | [] => some []
  | v :: vs =>
    match marshalValue v, marshalElemsTail vs with
    | some hd, some tl => some (hd ++ tl)
    | _, _ => none

def marshalElemsTail : List JValue → Option Str
  | [] => some []
  | v :: vs =>
    match marshalValue v, marshalElemsTail vs with
    | some hd, some tl => some (',' :: (hd ++ tl))
    | _, _ => none

def marshalFields : List (Str × JValue) → Option Str
  | [] => some []
  | (k, v) :: fs =>
    match marshalValue v, marshalFieldsTail fs with
    | some mv, some tl => some (quoteChars k ++ ':' :: (mv ++ tl))
    | _, _ => none

def marshalFieldsTail : List (Str × JValue) → Option Str
  | [] => some []
  | (k, v) :: fs =>
    match marshalValue v, marshalFieldsTail fs with
    | some mv, some tl => some (',' :: (quoteChars k ++ ':' :: (mv ++ tl)))
    | _, _ => none

end

/-- Embedding of `LogEvent` (types.go:9-15): timestamp, site, tab_id,
event_type and the free-form data map (as an ordered field list). -/
structure LogEvent where
  timestamp : String
  site : String
  tabID : String
  eventType : String
  data : List (Str × JValue)

/-- Model of `json.Marshal` on a `LogEvent`, with the struct's field order. -/
def marshalEvent (ev : LogEvent) : Option Str :=
  marshalValue (.obj [
    ("timestamp".toList, .str ev.timestamp.toList),
    ("site".toList, .str ev.site.toList),
    ("tab_id".toList, .str ev.tabID.toList),
    ("event_type".toList, .str ev.eventType.toList),
    ("data".toList, .obj ev.data)])

/-- Embedding of `NewLogEvent` (types.go:18-26); `time.Now()` is the explicit
`now` parameter. -/
def newLogEvent (now site tabID eventType : String) (data : List (Str × JValue)) : LogEvent :=
  { timestamp := now, site := site, tabID := tabID, eventType := eventType, data := data }

/-- Embedding of `NewSessionStartEvent` (types.go:73-80); the second
`time.Now()` call (the `start_time` value) is the explicit `startNow`
parameter. -/
def newSessionStartEvent (now : String) (sessionID : String) (chromePID : Int)
    (version : String) (startNow : String) : LogEvent :=
  newLogEvent now "_meta" "_session" "meta.session_start" [
    ("session_id".toList, .str sessionID.toList),
    ("chrome_pid".toList, .num chromePID),
    ("browser_tail_version".toList, .str version.toList),
    ("start_time".toList, .str startNow.toList)]

/-- Embedding of `NewSiteChangedEvent` (types.go:102-108). -/
def newSiteChangedEvent (now oldSite tabID newSite newURL : String) : LogEvent :=
  newLogEvent now oldSite tabID "meta.site_changed" [
    ("old_site".toList, .str oldSite.toList),
    ("new_site".toList, .str newSite.toList),
    ("new_url".toList, .str newURL.toList)]

/-- Embedding of `NewSiteEnteredEvent` (types.go:111-116). -/
def newSiteEnteredEvent (now site tabID fromSite url : String) : LogEvent :=
  newLogEvent now site tabID "meta.site_entered" [
    ("from_site".toList, .str fromSite.toList),
    ("url".toList, .str url.toList)]

/-! ## Model of `json.Unmarshal`

`RedactBody` round-trips its input through `encoding/json`; the model's parser
below inverts `marshalValue` (the property the redactor's idempotence rests
on). The parser is fuel-indexed (every recursive call strictly decreases the
fuel, so it is structural) and consumes one value from the front of the input,
returning the remainder. -/

/-- Body of a JSON string literal after the opening quote: characters up to
the closing quote, undoing the backslash escapes. -/
def parseStringBody : Str → Option (Str × Str)
  | [] => none
  | c :: rest =>
    if c = '"' then some ([], rest)
    else if c = '\\' then
      match rest with
      | [] => none
      | e :: rest2 => (parseStringBody rest2).map fun p => (e :: p.1, p.2)
    else (parseStringBody rest).map fun p => (c :: p.1, p.2)

/-- Numeric value of a digit character. -/
def digitVal (c : Char) : Nat := c.toNat - 48

/-- Decimal value of a digit run (most significant digit first). -/
def digitsToNat (l : Str) : Nat := l.foldl (fun a c => 10 * a + digitVal c) 0

/-- Parse an (optionally negated) decimal integer from the front. -/
def parseNumber : Str → Option (JValue × Str)
  | [] => none
  | c :: rest =>
    if c = '-' then
      if rest.takeWhile Char.isDigit = [] then none
      else some (.num (-(digitsToNat (rest.takeWhile Char.isDigit) : Int)),
        rest.dropWhile Char.isDigit)
    else
      if (c :: rest).takeWhile Char.isDigit = [] then none
      else some (.num (digitsToNat ((c :: rest).takeWhile Char.isDigit) : Int),
        (c :: rest).dropWhile Char.isDigit)

mutual

def parseVal : Nat → Str → Option (JValue × Str)
  | 0, _ => none
  | _ + 1, [] => none
  | fuel + 1, c :: rest =>
    if c = 'n' then
      if "ull".toList.isPrefixOf rest then some (.null, rest.drop 3) else none
    else if c = 't' then
      if "rue".toList.isPrefixOf rest then some (.bool true, rest.drop 3) else none
    else if c = 'f' then
      if "alse".toList.isPrefixOf rest then some (.bool false, rest.drop 4) else none
    else if c = '"' then
      (parseStringBody rest).map fun p => (.str p.1, p.2)
    else if c = '[' then
      match rest with
      | [] => none
      | r0 :: rest2 =>
        if r0 = ']' then some (.arr [], rest2)
        else (parseElems fuel (r0 :: rest2)).map fun p => (.arr p.1, p.2)
    else if c = '\x7b' then
      match rest with
      | [] => none
      | r0 :: rest2 =>
        if r0 = '\x7d' then some (.obj [], rest2)
        else (parseMembers fuel (r0 :: rest2)).map fun p => (.obj p.1, p.2)
    else parseNumber (c :: rest)

def parseElems : Nat → Str → Option (List JValue × Str)
  | 0, _ => none
  | fuel + 1, s =>
    match parseVal fuel s with
    | none => none
    | some (v, r) =>
      match r with
      | [] => none
      | c :: r2 =>
        if c = ',' then
          match parseElems fuel r2 with
          | none => none
          | some (vs, r3) => some (v :: vs, r3)
        else if c = ']' then some ([v], r2)
        else none

def parseMembers : Nat → Str → Option (List (Str × JValue) × Str)
  | 0, _ => none
  | fuel + 1, s =>
    match s with
    | [] => none
    | c :: r =>
      if c = '"' then
        match parseStringBody r with
        | none => none
        | some (k, r1) =>
          match r1 with
          | [] => none
          | c1 :: r2 =>
            if c1 = ':' then
              match parseVal fuel r2 with
              | none => none
              | some (v, r3) =>
                match r3 with
                | [] => none
                | c2 :: r4 =>
                  if c2 = ',' then
                    match parseMembers fuel r4 with
                    | none => none
                    | some (ms, r5) => some ((k, v) :: ms, r5)
                  else if c2 = '\x7d' then some ([(k, v)], r4)
                  else none
            else none
      else none

end

/-- Model of `json.Unmarshal` on a whole document: parse one value with
enough fuel and require the input to be consumed. -/
def unmarshal (s : Str) : Option JValue :=
  match parseVal (s.length + 1) s with
  | some (v, []) => some v
  | _ => none

/-- Remainders that cannot extend a rendered value: empty, or starting with a
character that does not extend a digit run (every delimiter the renderer emits
after a value — `,`, `]`, `}` — qualifies). -/
def headSafe : Str → Prop
  | [] => True
  | c :: _ => c.isDigit = false

/-! Fuel bounds: `jsizeVal v` is enough fuel for `parseVal` to re-read the
rendering of `v`, and correspondingly for element and member lists. -/

mutual

def jsizeVal : JValue → Nat
  | .arr vs => 1 + jsizeElems vs
  | .obj fs => 1 + jsizeFields fs
  | _ => 1

def jsizeElems : List JValue → Nat
  | [] => 0
  | v :: vs => 1 + jsizeVal v + jsizeElems vs

def jsizeFields : List (Str × JValue) → Nat
  | [] => 0
  | (_, v) :: fs => 1 + jsizeVal v + jsizeFields fs

end

/-! ## `internal/redact/redactor.go` and `rules.go` -/

/-- Constant `RedactedValue` (redactor.go:9). -/
def redactedValue : String := "[REDACTED]"

/-- `DefaultHeaderDenylist` (rules.go). -/
def defaultHeaderDenylist : List String :=
  ["cookie", "set-cookie", "authorization", "proxy-authorization", "x-api-key",
   "x-auth-token", "x-csrf-token", "x-xsrf-token"]

/-- `DefaultBodyFieldDenylist` (rules.go). -/
def defaultBodyFieldDenylist : List String :=
  ["password", "passwd", "secret", "token", "apikey", "api_key", "accesstoken",
   "access_token", "refreshtoken", "refresh_token", "private_key", "privatekey",
   "client_secret", "clientsecret", "credential", "credentials", "auth", "ssn",
   "social_security", "credit_card", "creditcard", "card_number", "cardnumber",
   "cvv", "pin"]

/-- Embedding of `Redactor` (redactor.go:12-16). -/
structure Redactor where
  enabled : Bool
  headerDenylist : List String
  bodyFieldDenylist : List String

/-- Embedding of `New` (redactor.go:19-25). -/
def redactorNew (enabled : Bool) : Redactor :=
  ⟨enabled, defaultHeaderDenylist, defaultBodyFieldDenylist⟩

/-- Embedding of `NewWithCustomRules` (redactor.go:28-37); a `none` list means
the Go `nil` slice, which leaves the defaults unchanged. -/
def redactorNewWithCustomRules (enabled : Bool)
    (headers bodyFields : Option (List String)) : Redactor :=
  let r := redactorNew enabled
  let r := match headers with
    | none => r
    | some hs => { r with headerDenylist := r.headerDenylist ++ hs }
  match bodyFields with
  | none => r
  | some bs => { r with bodyFieldDenylist := r.bodyFieldDenylist ++ bs }

/-- Substring test on character lists (model of Go `strings.Contains`). -/
def listContainsSub (sub : Str) : Str → Bool
  | [] => sub.isPrefixOf []
  | c :: rest => if sub.isPrefixOf (c :: rest) then true else listContainsSub sub rest

/-- Lower-case a character list (ASCII model of Go `strings.ToLower`). -/
def lowerStr (l : Str) : Str := l.map Char.toLower

/-- Embedding of `matchHeaderName` (rules.go): `strings.EqualFold` modelled
as equality of the lower-cased names. -/
def matchHeaderName (actual pattern : String) : Bool :=
  lowerStr actual.toList = lowerStr pattern.toList

/-- Embedding of `matchBodyFieldName` (rules.go): lower-case both, then match
exactly or as a substring. -/
def matchBodyFieldName (actual : Str) (pattern : String) : Bool :=
  let a := lowerStr actual
  let p := lowerStr pattern.toList
  if a = p then true else listContainsSub p a

/-- Embedding of `Redactor.shouldRedactHeader` (redactor.go:89-96). -/
def shouldRedactHeader (r : Redactor) (name : String) : Bool :=
  r.headerDenylist.any fun pattern => matchHeaderName name pattern

/-- Embedding of `Redactor.shouldRedactBodyField` (redactor.go:99-106). -/
def shouldRedactBodyField (r : Redactor) (name : Str) : Bool :=
  r.bodyFieldDenylist.any fun pattern => matchBodyFieldName name pattern

/-- Embedding of `Redactor.RedactHeaders` (redactor.go:45-59); the header map
is `none` for Go's nil map. -/
def redactHeaders (r : Redactor) (headers : Option (List (String × JValue))) :
    Option (List (String × JValue)) :=
  if r.enabled = false then headers
  else match headers with
    | none => none
    | some hs =>
      some (hs.map fun kv =>
        if shouldRedactHeader r kv.1 then (kv.1, .str redactedValue.toList) else kv)

/-! Embedding of `redactValue` / `redactMap` / `redactSlice`
(redactor.go:109-140). -/
mutual

def redactValue (r : Redactor) : JValue → JValue
  | .obj fields => .obj (redactMap r fields)
  | .arr elems => .arr (redactSlice r elems)
  | v => v

def redactMap (r : Redactor) : List (Str × JValue) → List (Str × JValue)
  | [] => []
  | (k, v) :: rest =>
    (if shouldRedactBodyField r k then (k, .str redactedValue.toList)
     else (k, redactValue r v)) :: redactMap r rest

def redactSlice (r : Redactor) : List JValue → List JValue
  | [] => []
  | v :: vs => redactValue r v :: redactSlice r vs

end

/-- Embedding of `Redactor.RedactBody` (redactor.go:64-86). -/
def redactBody (r : Redactor) (body : Str) : Str :=
  if r.enabled = false ∨ body = [] then body
  else match unmarshal body with
    | none => body
    | some d =>
      match marshalValue (redactValue r d) with
      | none => body
      | some out => out

/-! ## `internal/logger/file_manager.go`

The store is modelled as two finite maps: `files` (the open `tabWriter`s,
keyed by `tabID + ":" + site` as in `fileKey`) and `disk` (the OS-level
content of each log file, keyed the same way — the path
`base/site/tabID/session.log` is in bijection with the key for a fixed base
directory). Each writer carries its buffered bytes, its buffer capacity, the
fsync watermark `syncedLen` (how many bytes of the file's OS content have been
fsynced), a count of fsync calls performed on it, and the pending-flush-timer
flag. -/

/-- Model of one `tabWriter` (file_manager.go:24-31). -/
structure TabWriter where
  buffered : Str
  size : Nat
  syncedLen : Nat
  syncCount : Nat
  flushTimer : Bool
  site : String
  tabID : String
deriving DecidableEq

/-- Model of `FileManager` (file_manager.go:34-40) together with the on-disk
file contents. -/
structure FileManager where
  files : List (String × TabWriter)
  disk : List (String × Str)
  bufferSize : Nat
  flushInterval : Nat
deriving DecidableEq

/-- Embedding of `NewFileManager` (with `SetBufferSize`/`SetFlushInterval`
already applied): empty maps and the given parameters. -/
def fileManagerNew (bufSize flushInt : Nat) : FileManager :=
  ⟨[], [], bufSize, flushInt⟩

/-- Embedding of `fileKey` (file_manager.go:63-65). -/
def fileKey (tabID site : String) : String := tabID ++ ":" ++ site

/-- OS-level content of the file behind `key` (empty if never created). -/
def diskContent (fm : FileManager) (key : String) : Str :=
  (lookupA fm.disk key).getD []

/-- Observable bytes of the file behind `key`: what is on disk plus what is
still buffered in its open writer (if any). -/
def fileBytes (fm : FileManager) (key : String) : Str :=
  diskContent fm key ++
    (match lookupA fm.files key with
     | some tw => tw.buffered
     | none => [])

/-- Number of fsync calls performed so far on the open writer behind `key`
(zero when no writer is open). -/
def writerSyncCount (fm : FileManager) (key : String) : Nat :=
  match lookupA fm.files key with
  | some tw => tw.syncCount
  | none => 0

/-- First line of a JSONL file's content (the first record). -/
def takeLine (content : Str) : Str :=
  content.takeWhile fun c => ¬ (c = '\n')

/-- Embedding of `getWriter` (file_manager.go:68-108): return the open writer
or open the file (append mode: pre-existing disk content is kept) and create a
fresh writer for it. -/
def getWriter (fm : FileManager) (tabID site : String) : TabWriter × FileManager :=
  let key := fileKey tabID site
  match lookupA fm.files key with
  | some tw => (tw, fm)
  | none =>
    let existing := diskContent fm key
    let tw : TabWriter :=
      { buffered := [], size := fm.bufferSize, syncedLen := existing.length,
        syncCount := 0, flushTimer := false, site := site, tabID := tabID }
    (tw, { fm with files := setA fm.files key tw, disk := setA fm.disk key existing })

/-- Model of `bufio.Writer.Write` on the writer and the file's OS content:
data that fits stays in the buffer; a large write to an empty buffer goes
straight to the OS; otherwise the buffer is filled and flushed and the
remainder is buffered or written through. -/
def bufWrite (tw : TabWriter) (content : Str) (p : Str) : TabWriter × Str :=
  if tw.buffered.length + p.length ≤ tw.size then
    ({ tw with buffered := tw.buffered ++ p }, content)
  else if tw.buffered.length = 0 then (tw, content ++ p)
  else
    let avail := tw.size - tw.buffered.length
    let content2 := content ++ tw.buffered ++ p.take avail
    let r := p.drop avail
    if r.length ≤ tw.size then ({ tw with buffered := r }, content2)
    else ({ tw with buffered := [] }, content2 ++ r)

/-- Embedding of `tabWriter.cancelFlushTimer` (file_manager.go:179-184). -/
def cancelFlushTimer (tw : TabWriter) : TabWriter := { tw with flushTimer := false }

/-- Embedding of `tabWriter.scheduleFlush` (file_manager.go:165-176): a no-op
when a timer is already pending. -/
def scheduleFlush (tw : TabWriter) : TabWriter :=
  if tw.flushTimer then tw else { tw with flushTimer := true }

/-- Model of Go `strings.HasPrefix` on `String`s. -/
def strHasPrefix (s pre : String) : Bool := pre.toList.isPrefixOf s.toList

/-- Embedding of `handleFlush` (file_manager.go:136-162): meta events flush
and fsync immediately and cancel the timer; a 3/4-full buffer flushes without
fsync; otherwise a deferred flush is scheduled. -/
def handleFlush (tw : TabWriter) (content : Str) (eventType : String) :
    TabWriter × Str :=
  let isMeta := strHasPrefix eventType "meta."
  let bufferFull := decide (tw.buffered.length > tw.size * 3 / 4)
  if isMeta then
    let content2 := content ++ tw.buffered
    (cancelFlushTimer
      { tw with buffered := [], syncedLen := content2.length,
                syncCount := tw.syncCount + 1 },
     content2)
  else if bufferFull then
    (cancelFlushTimer { tw with buffered := [] }, content ++ tw.buffered)
  else (scheduleFlush tw, content)

/-- Embedding of `FileManager.WriteEvent` (file_manager.go:111-133): get or
create the writer for `(tabID, event.Site)`, marshal the record (an error is
returned with the store otherwise untouched beyond the `getWriter` step),
append the line to the buffer, and apply the flush policy. -/
def fmWriteEvent (fm : FileManager) (tabID : String) (ev : LogEvent) :
    FileManager × Option String :=
  let gw := getWriter fm tabID ev.site
  let key := fileKey tabID ev.site
  match marshalEvent ev with
  | none => (gw.2, some "json: unsupported value")
  | some data =>
    let bw := bufWrite gw.1 (diskContent gw.2 key) (data ++ ['\n'])
    let hf := handleFlush bw.1 bw.2 ev.eventType
    ({ gw.2 with files := setA gw.2.files key hf.1, disk := setA gw.2.disk key hf.2 },
     none)

/-- Embedding of `FileManager.CloseTab` (file_manager.go:187-213): absent key
returns nil with the store untouched; otherwise remove from the map, cancel
the timer, flush, fsync and close (OS-level failures are outside the model, so
the result error is always `none`). -/
def fmCloseTab (fm : FileManager) (tabID site : String) : FileManager × Option String :=
  let key := fileKey tabID site
  match lookupA fm.files key with
  | none => (fm, none)
  | some tw =>
    let fm1 := { fm with files := removeA fm.files key }
    let content := diskContent fm1 key ++ tw.buffered
    ({ fm1 with disk := setA fm1.disk key content }, none)

/-! ## `internal/monitor/tab_monitor.go` -/

/-- The slice of `config.Config` the monitor's body-capture check reads. -/
structure CaptureConfig where
  bodySizeLimitKB : Int
  bodyContentTypes : List Str
deriving DecidableEq

/-- ASCII whitespace (model of the characters `strings.TrimSpace` strips in
the MIME strings at hand). -/
def isSpaceChar (c : Char) : Bool := c = ' ' ∨ c = '\t' ∨ c = '\n' ∨ c = '\r'

/-- Model of `strings.TrimSpace` on a character list. -/
def trimSpaceL (l : Str) : Str :=
  ((l.dropWhile isSpaceChar).reverse.dropWhile isSpaceChar).reverse

/-- Parameter stripping in `matchContentType` (tab_monitor.go:313-316): cut at
the first `;` and trim, when a `;` occurs. -/
def stripParams (actual : Str) : Str :=
  if actual.contains ';' then trimSpaceL (actual.takeWhile fun c => ¬ (c = ';'))
  else actual

/-- Embedding of `matchContentType` (tab_monitor.go:312-325). -/
def matchContentType (actual pattern : Str) : Bool :=
  let a := stripParams actual
  if ['/', '*'].isSuffixOf pattern then
    (pattern.take (pattern.length - 2) ++ ['/']).isPrefixOf a
  else a = pattern

/-- Content-type matching exactly as the claim words it: a pattern of the
form `type/*` matches any subtype of that type (the stripped MIME is
`type/` followed by something), and any other pattern matches exactly.
Written from the spec text, for comparison with `matchContentType`. -/
def specContentTypeMatch (stripped pattern : Str) : Prop :=
  (∃ t sub, pattern = t ++ ['/', '*'] ∧ stripped = t ++ '/' :: sub) ∨
    ((¬ ∃ t, pattern = t ++ ['/', '*']) ∧ stripped = pattern)

/-- Embedding of `TabMonitor.shouldCaptureBody` (tab_monitor.go:293-309);
`size` is the (integral) `encodedDataLength`. -/
def shouldCaptureBody (cfg : CaptureConfig) (mimeType : Str) (size : Int) : Bool :=
  let maxSize := cfg.bodySizeLimitKB * 1024
  if size > maxSize ∧ size > 0 then false
  else
    let m := lowerStr mimeType
    cfg.bodyContentTypes.any fun allowed => matchContentType m allowed

/-- The mutable per-tab state of `TabMonitor` that `HandleSiteChange` and
`writeEvent` touch (tab_monitor.go:31-54). -/
structure TabMonitor where
  tabID : String
  currentSite : String
  currentURL : String
deriving DecidableEq

/-- Embedding of `TabMonitor.writeEvent` (tab_monitor.go:287-290): the write
error is discarded, only the store's new state is kept. -/
def tmWriteEvent (tm : TabMonitor) (fm : FileManager) (ev : LogEvent) : FileManager :=
  (fmWriteEvent fm tm.tabID ev).1

/-- Embedding of `TabMonitor.HandleSiteChange` (tab_monitor.go:369-411);
`ts1`/`ts2` are the `time.Now()` values of the two emitted records. Returns
(changed?, new monitor state, new store state). -/
def handleSiteChange (tm : TabMonitor) (fm : FileManager)
    (newSite newURL ts1 ts2 : String) : Bool × TabMonitor × FileManager :=
  if newSite = tm.currentSite then (false, { tm with currentURL := newURL }, fm)
  else
    let oldSite := tm.currentSite
    let fm1 := (fmWriteEvent fm tm.tabID
      (newSiteChangedEvent ts1 oldSite tm.tabID newSite newURL)).1
    let fm2 := (fmCloseTab fm1 tm.tabID oldSite).1
    let tm2 := { tm with currentSite := newSite, currentURL := newURL }
    let fm3 := (fmWriteEvent fm2 tm2.tabID
      (newSiteEnteredEvent ts2 newSite tm2.tabID oldSite newURL)).1
    (true, tm2, fm3)

/-! # Theorems

Helper lemmas first, then the claim theorems (one per claim of the
specification review, each named after its claim). -/

/-! ## Association-list lemmas -/

theorem lookupA_setA_self {α : Type} (l : List (String × α)) (k : String) (v : α) :
    lookupA (setA l k v) k = some v := by
  induction l with
  | nil => simp [setA, lookupA]
  | cons hd tl ih =>
    obtain ⟨k0, v0⟩ := hd
    by_cases h : k0 = k
    · simp [setA, h, lookupA]
    · simp [setA, h, lookupA, ih]

theorem lookupA_setA_ne {α : Type} (l : List (String × α)) (k k' : String) (v : α)
    (h : ¬ k' = k) : lookupA (setA l k v) k' = lookupA l k' := by
  have h' : ¬ k = k' := fun hk => h hk.symm
  induction l with
  | nil => simp [setA, lookupA, h']
  | cons hd tl ih =>
    obtain ⟨k0, v0⟩ := hd
    by_cases h0 : k0 = k
    · subst h0
      simp [setA, lookupA, h']
    · simp [setA, h0, lookupA, ih]

theorem lookupA_removeA_self {α : Type} (l : List (String × α)) (k : String) :
    lookupA (removeA l k) k = none := by
  induction l with
  | nil => simp [removeA, lookupA]
  | cons hd tl ih =>
    obtain ⟨k0, v0⟩ := hd
    by_cases h : k0 = k
    · simp [removeA, h, ih]
    · simp [removeA, h, lookupA, ih]

theorem lookupA_removeA_ne {α : Type} (l : List (String × α)) (k k' : String)
    (h : ¬ k' = k) : lookupA (removeA l k) k' = lookupA l k' := by
  have h' : ¬ k = k' := fun hk => h hk.symm
  induction l with
  | nil => simp [removeA]
  | cons hd tl ih =>
    obtain ⟨k0, v0⟩ := hd
    by_cases h0 : k0 = k
    · subst h0
      simp [removeA, lookupA, h', ih]
    · simp [removeA, h0, lookupA, ih]

theorem mem_of_mem_removeA {α : Type} (l : List (String × α)) (k : String)
    (q : String × α) (h : q ∈ removeA l k) : q ∈ l := by
  induction l with
  | nil => simp [removeA] at h
  | cons hd tl ih =>
    obtain ⟨k0, v0⟩ := hd
    by_cases h0 : k0 = k
    · simp only [removeA, if_pos h0] at h
      exact List.mem_cons_of_mem _ (ih h)
    · simp only [removeA, if_neg h0, List.mem_cons] at h
      rcases h with h | h
      · exact h ▸ List.mem_cons_self _ _
      · exact List.mem_cons_of_mem _ (ih h)

/-- Claim C1, code bug: the spec (and the function's own doc comment) promise
decimal tab names `tab-N`, and the code agrees for the first nine IDs, but the
single-rune conversion `string(rune('0'+id))` makes the tenth allocation
produce `"tab-:"` (`':'` is the code point after `'9'`), not `"tab-10"`. -/
theorem c1_generateTabID_tenth_not_decimal :
    generateTabID 1 = specTabID 1 ∧ generateTabID 9 = specTabID 9 ∧
      generateTabID 10 = "tab-:" ∧ ¬ generateTabID 10 = specTabID 10 := by
  decide

/-- Claim C5, counterexample: the session-start record's data keys are not
`session_id`, `browser_pid`, `tool_version`, `start_time` — in particular no
`browser_pid` key exists (the code writes `chrome_pid` and
`browser_tail_version`). -/
theorem c5_sessionStart_keys_counterexample :
    ¬ ((newSessionStartEvent "t0" "sid" 0 "1.0.0" "t1").data.map Prod.fst =
        ["session_id".toList, "browser_pid".toList, "tool_version".toList,
          "start_time".toList]) ∧
      ¬ ("browser_pid".toList ∈
          (newSessionStartEvent "t0" "sid" 0 "1.0.0" "t1").data.map Prod.fst) := by
  decide

/-- Claim C5, as amended: every session-start record has site `_meta`, tab ID
`_session`, event type `meta.session_start`, and its data map holds exactly
the keys `session_id`, `chrome_pid`, `browser_tail_version`, `start_time`, in
that order. -/
theorem c5_sessionStart_fields (now sessionID : String) (pid : Int)
    (version startNow : String) :
    (newSessionStartEvent now sessionID pid version startNow).site = "_meta" ∧
      (newSessionStartEvent now sessionID pid version startNow).tabID = "_session" ∧
      (newSessionStartEvent now sessionID pid version startNow).eventType =
        "meta.session_start" ∧
      (newSessionStartEvent now sessionID pid version startNow).data.map Prod.fst =
        ["session_id".toList, "chrome_pid".toList, "browser_tail_version".toList,
          "start_time".toList] :=
  ⟨rfl, rfl, rfl, rfl⟩

/-- Claim C10: closing a (tab, site) pair with no open file returns nil and
leaves the store untouched, and a second close of the same pair after any
close is a no-op without error. -/
theorem c10_closeTab_absent_noop_idempotent (fm : FileManager) (tabID site : String) :
    (lookupA fm.files (fileKey tabID site) = none →
      fmCloseTab fm tabID site = (fm, none)) ∧
      fmCloseTab (fmCloseTab fm tabID site).1 tabID site =
        ((fmCloseTab fm tabID site).1, none) := by
  constructor
  · intro h
    simp [fmCloseTab, h]
  · cases h : lookupA fm.files (fileKey tabID site) with
    | none => simp [fmCloseTab, h]
    | some tw =>
      have h2 : lookupA (removeA fm.files (fileKey tabID site)) (fileKey tabID site)
          = none := lookupA_removeA_self _ _
      simp [fmCloseTab, h, h2]

/-! ## File-manager helper lemmas -/

theorem bufWrite_syncCount (tw : TabWriter) (content p : Str) :
    (bufWrite tw content p).1.syncCount = tw.syncCount := by
  unfold bufWrite
  dsimp only
  repeat' split
  all_goals rfl

theorem bufWrite_bytes (tw : TabWriter) (content p : Str) :
    (bufWrite tw content p).2 ++ (bufWrite tw content p).1.buffered =
      content ++ tw.buffered ++ p := by
  unfold bufWrite
  dsimp only
  split
  · simp
  · split
    · next hz =>
      have hb : tw.buffered = [] := List.length_eq_zero.1 hz
      simp [hb]
    · split
      · simp [List.take_append_drop]
      · simp [List.take_append_drop]

theorem getWriter_syncCount (fm : FileManager) (tabID site : String) :
    (getWriter fm tabID site).1.syncCount = writerSyncCount fm (fileKey tabID site) := by
  unfold getWriter writerSyncCount
  cases h : lookupA fm.files (fileKey tabID site) <;> simp [h]

theorem getWriter_fileBytes (fm : FileManager) (tabID site : String) (key : String) :
    fileBytes (getWriter fm tabID site).2 key = fileBytes fm key := by
  unfold getWriter
  cases h : lookupA fm.files (fileKey tabID site) with
  | some tw => simp [h]
  | none =>
    by_cases hk : key = fileKey tabID site
    · subst hk
      simp [h, fileBytes, diskContent, lookupA_setA_self]
    · simp [h, fileBytes, diskContent, lookupA_setA_ne _ _ _ _ hk]

theorem getWriter_buffered_of_none (fm : FileManager) (tabID site : String)
    (h : lookupA fm.files (fileKey tabID site) = none) :
    (getWriter fm tabID site).1.buffered = [] := by
  unfold getWriter
  simp [h]

/-- Claim C3: a successful `WriteEvent` of a `meta.*` record leaves that
file's writer with an empty buffer, no pending flush timer, and an fsync
watermark covering the whole OS-level file content, having performed exactly
one more fsync; a successful `WriteEvent` of any other record performs no
fsync on the write path. -/
theorem c3_writeEvent_flush_policy (fm : FileManager) (tabID : String) (ev : LogEvent) :
    (strHasPrefix ev.eventType "meta." = true →
      ∀ fm', fmWriteEvent fm tabID ev = (fm', none) →
        ∃ tw, lookupA fm'.files (fileKey tabID ev.site) = some tw ∧
          tw.buffered = [] ∧ tw.flushTimer = false ∧
          tw.syncedLen = (diskContent fm' (fileKey tabID ev.site)).length ∧
          tw.syncCount = writerSyncCount fm (fileKey tabID ev.site) + 1) ∧
    (strHasPrefix ev.eventType "meta." = false →
      ∀ fm', fmWriteEvent fm tabID ev = (fm', none) →
        writerSyncCount fm' (fileKey tabID ev.site) =
          writerSyncCount fm (fileKey tabID ev.site)) := by
  constructor
  · intro hmeta fm' heq
    unfold fmWriteEvent at heq
    cases hmar : marshalEvent ev with
    | none => simp [hmar] at heq
    | some data =>
      simp only [hmar, Prod.mk.injEq] at heq
      obtain ⟨hfm, -⟩ := heq
      subst hfm
      simp only [handleFlush, hmeta, if_pos]
      refine ⟨_, lookupA_setA_self _ _ _, rfl, rfl, ?_, ?_⟩
      · simp [diskContent, lookupA_setA_self, cancelFlushTimer]
      · simp [cancelFlushTimer, bufWrite_syncCount, getWriter_syncCount]
  · intro hmeta fm' heq
    unfold fmWriteEvent at heq
    cases hmar : marshalEvent ev with
    | none => simp [hmar] at heq
    | some data =>
      simp only [hmar, Prod.mk.injEq] at heq
      obtain ⟨hfm, -⟩ := heq
      subst hfm
      simp only [writerSyncCount, lookupA_setA_self]
      simp only [handleFlush, hmeta, Bool.false_eq_true, if_false]
      split
      · simp [cancelFlushTimer, bufWrite_syncCount, getWriter_syncCount, writerSyncCount]
      · simp [scheduleFlush, bufWrite_syncCount, getWriter_syncCount, writerSyncCount]
        split <;>
          simp [bufWrite_syncCount, getWriter_syncCount, writerSyncCount]

/-- Claim C3 witness: writing a concrete `meta.tab_created` record to a fresh
store flushes, fsyncs and cancels the timer. -/
theorem c3_witness :
    strHasPrefix (newLogEvent "T" "a.com" "tab-1" "meta.tab_created" []).eventType
        "meta." = true ∧
      ∃ tw, lookupA ((fmWriteEvent (fileManagerNew 8192 100) "tab-1"
          (newLogEvent "T" "a.com" "tab-1" "meta.tab_created" [])).1).files
          (fileKey "tab-1" "a.com") = some tw ∧
        tw.buffered = [] ∧ tw.flushTimer = false ∧
        tw.syncedLen = (diskContent ((fmWriteEvent (fileManagerNew 8192 100) "tab-1"
          (newLogEvent "T" "a.com" "tab-1" "meta.tab_created" [])).1)
          (fileKey "tab-1" "a.com")).length ∧
        tw.syncCount = writerSyncCount (fileManagerNew 8192 100)
          (fileKey "tab-1" "a.com") + 1 :=
  ⟨by decide,
    (c3_writeEvent_flush_policy (fileManagerNew 8192 100) "tab-1"
      (newLogEvent "T" "a.com" "tab-1" "meta.tab_created" [])).1 (by decide)
      _ (by decide)⟩

/-- Claim C9: when marshalling a record fails, `WriteEvent` reports the error
with every file's observable content unchanged, and the monitor's
`writeEvent` swallows that error, leaving only the (unchanged) store state. -/
theorem c9_marshal_error_atomic_and_discarded (tm : TabMonitor) (fm : FileManager)
    (ev : LogEvent) (hmar : marshalEvent ev = none) :
    (fmWriteEvent fm tm.tabID ev).2.isSome = true ∧
      (∀ key, fileBytes (fmWriteEvent fm tm.tabID ev).1 key = fileBytes fm key) ∧
      ∀ key, fileBytes (tmWriteEvent tm fm ev) key = fileBytes fm key := by
  have hrun : fmWriteEvent fm tm.tabID ev =
      ((getWriter fm tm.tabID ev.site).2, some "json: unsupported value") := by
    unfold fmWriteEvent
    simp [hmar]
  refine ⟨by simp [hrun], ?_, ?_⟩
  · intro key
    rw [hrun]
    exact getWriter_fileBytes fm tm.tabID ev.site key
  · intro key
    unfold tmWriteEvent
    rw [hrun]
    exact getWriter_fileBytes fm tm.tabID ev.site key

/-- Claim C9 witness: a record whose data holds an unserializable value is
rejected with an error and a fresh store's files are untouched. -/
theorem c9_witness :
    marshalEvent (newLogEvent "T" "a.com" "tab-1" "console.log"
        [("args".toList, .unser "func")]) = none ∧
      (fmWriteEvent (fileManagerNew 8192 100) "tab-1"
        (newLogEvent "T" "a.com" "tab-1" "console.log"
          [("args".toList, .unser "func")])).2.isSome = true ∧
      fileBytes (tmWriteEvent ⟨"tab-1", "a.com", "http://a/"⟩ (fileManagerNew 8192 100)
          (newLogEvent "T" "a.com" "tab-1" "console.log"
            [("args".toList, .unser "func")])) (fileKey "tab-1" "a.com") =
        fileBytes (fileManagerNew 8192 100) (fileKey "tab-1" "a.com") :=
  ⟨by decide,
    (c9_marshal_error_atomic_and_discarded ⟨"tab-1", "a.com", "http://a/"⟩
      (fileManagerNew 8192 100) _ (by decide)).1,
    (c9_marshal_error_atomic_and_discarded ⟨"tab-1", "a.com", "http://a/"⟩
      (fileManagerNew 8192 100) _ (by decide)).2.2 (fileKey "tab-1" "a.com")⟩

/-! ## Observable behaviour of write and close, for the site-change proof -/

theorem fileKey_site_inj (tabID s s' : String) (h : fileKey tabID s = fileKey tabID s') :
    s = s' := by
  have hd : (tabID ++ ":" ++ s).data = (tabID ++ ":" ++ s').data := by
    rw [show tabID ++ ":" ++ s = fileKey tabID s from rfl,
      show tabID ++ ":" ++ s' = fileKey tabID s' from rfl, h]
  rw [String.data_append, String.data_append] at hd
  exact String.ext (List.append_cancel_left hd)

theorem getWriter_openBytes (fm : FileManager) (tabID site : String) :
    diskContent (getWriter fm tabID site).2 (fileKey tabID site) ++
        (getWriter fm tabID site).1.buffered =
      fileBytes fm (fileKey tabID site) := by
  unfold getWriter
  cases h : lookupA fm.files (fileKey tabID site) with
  | some tw => simp [h, fileBytes]
  | none => simp [h, fileBytes, diskContent, lookupA_setA_self]

theorem getWriter_preserves_ne (fm : FileManager) (tabID site key : String)
    (hk : ¬ key = fileKey tabID site) :
    lookupA (getWriter fm tabID site).2.files key = lookupA fm.files key ∧
      diskContent (getWriter fm tabID site).2 key = diskContent fm key := by
  unfold getWriter
  cases h : lookupA fm.files (fileKey tabID site) with
  | some tw => simp [h]
  | none => simp [h, diskContent, lookupA_setA_ne _ _ _ _ hk]

/-- A successful `WriteEvent` of a `meta.*` record appends the marshalled
line to the file, flushes everything through to the OS, and leaves every
other file untouched. -/
theorem fmWriteEvent_meta_spec (fm : FileManager) (tabID : String) (ev : LogEvent)
    (line : Str) (hm : marshalEvent ev = some line)
    (hmeta : strHasPrefix ev.eventType "meta." = true) :
    (fmWriteEvent fm tabID ev).2 = none ∧
      diskContent (fmWriteEvent fm tabID ev).1 (fileKey tabID ev.site) =
        fileBytes fm (fileKey tabID ev.site) ++ line ++ ['\n'] ∧
      (∃ tw, lookupA (fmWriteEvent fm tabID ev).1.files (fileKey tabID ev.site) =
          some tw ∧ tw.buffered = []) ∧
      ∀ key, ¬ key = fileKey tabID ev.site →
        lookupA (fmWriteEvent fm tabID ev).1.files key = lookupA fm.files key ∧
          diskContent (fmWriteEvent fm tabID ev).1 key = diskContent fm key := by
  have hbytes := getWriter_openBytes fm tabID ev.site
  have hflush : ∀ tw content, handleFlush tw content ev.eventType =
      (cancelFlushTimer
        { tw with buffered := [], syncedLen := (content ++ tw.buffered).length,
                  syncCount := tw.syncCount + 1 },
        content ++ tw.buffered) := by
    intro tw content
    simp [handleFlush, hmeta]
  refine ⟨?_, ?_, ?_, ?_⟩
  · unfold fmWriteEvent
    simp [hm]
  · unfold fmWriteEvent
    simp only [hm, hflush]
    simp only [diskContent, lookupA_setA_self, Option.getD_some, cancelFlushTimer]
    have hb := bufWrite_bytes (getWriter fm tabID ev.site).1
      (diskContent (getWriter fm tabID ev.site).2 (fileKey tabID ev.site))
      (line ++ ['\n'])
    have hbytes' := hbytes
    simp only [diskContent] at hb hbytes'
    rw [hb, hbytes']
    simp
  · unfold fmWriteEvent
    simp only [hm, hflush]
    exact ⟨_, lookupA_setA_self _ _ _, rfl⟩
  · intro key hk
    unfold fmWriteEvent
    simp only [hm, hflush]
    have hpres := getWriter_preserves_ne fm tabID ev.site key hk
    constructor
    · simpa [lookupA_setA_ne _ _ _ _ hk] using hpres.1
    · simpa [diskContent, lookupA_setA_ne _ _ _ _ hk] using hpres.2

/-- `CloseTab` never errors in the model, empties the map entry, flushes the
remaining buffer to the OS, and leaves every other file untouched. -/
theorem fmCloseTab_spec (fm : FileManager) (tabID site : String) :
    (fmCloseTab fm tabID site).2 = none ∧
      lookupA (fmCloseTab fm tabID site).1.files (fileKey tabID site) = none ∧
      diskContent (fmCloseTab fm tabID site).1 (fileKey tabID site) =
        fileBytes fm (fileKey tabID site) ∧
      ∀ key, ¬ key = fileKey tabID site →
        lookupA (fmCloseTab fm tabID site).1.files key = lookupA fm.files key ∧
          diskContent (fmCloseTab fm tabID site).1 key = diskContent fm key := by
  unfold fmCloseTab
  cases h : lookupA fm.files (fileKey tabID site) with
  | none => simp [h, fileBytes]
  | some tw =>
    simp only [h]
    refine ⟨trivial, ?_, ?_, ?_⟩
    · simp [lookupA_removeA_self]
    · simp [h, diskContent, lookupA_setA_self, fileBytes]
    · intro key hk
      simp [diskContent, lookupA_setA_ne _ _ _ _ hk, lookupA_removeA_ne _ _ _ hk]

theorem fileBytes_of_closed (fm : FileManager) (key : String)
    (h : lookupA fm.files key = none) : fileBytes fm key = diskContent fm key := by
  simp [fileBytes, h]

theorem fileBytes_of_buffered_nil (fm : FileManager) (key : String) (tw : TabWriter)
    (h : lookupA fm.files key = some tw) (hb : tw.buffered = []) :
    fileBytes fm key = diskContent fm key := by
  simp [fileBytes, h, hb]

theorem marshalFieldsTail_some_of_allStr :
    ∀ fs : List (Str × JValue), (∀ p ∈ fs, ∃ s, p.2 = JValue.str s) →
      ∃ out, marshalFieldsTail fs = some out
  | [], _ => ⟨[], rfl⟩
  | (k, v) :: fs, h => by
    obtain ⟨s, hs⟩ := h (k, v) (List.mem_cons_self _ _)
    obtain ⟨tl, htl⟩ := marshalFieldsTail_some_of_allStr fs
      (fun p hp => h p (List.mem_cons_of_mem _ hp))
    subst hs
    simp only [marshalFieldsTail, marshalValue, htl]
    exact ⟨_, rfl⟩

theorem marshalFields_some_of_allStr (fs : List (Str × JValue))
    (h : ∀ p ∈ fs, ∃ s, p.2 = JValue.str s) : ∃ out, marshalFields fs = some out := by
  cases fs with
  | nil => exact ⟨[], rfl⟩
  | cons hd fs =>
    obtain ⟨k, v⟩ := hd
    obtain ⟨s, hs⟩ := h (k, v) (List.mem_cons_self _ _)
    obtain ⟨tl, htl⟩ := marshalFieldsTail_some_of_allStr fs
      (fun p hp => h p (List.mem_cons_of_mem _ hp))
    subst hs
    simp only [marshalFields, marshalValue, htl]
    exact ⟨_, rfl⟩

theorem marshalEvent_some_of_allStr (ev : LogEvent)
    (h : ∀ p ∈ ev.data, ∃ s, p.2 = JValue.str s) : ∃ out, marshalEvent ev = some out := by
  obtain ⟨inner, hinner⟩ := marshalFields_some_of_allStr ev.data h
  simp only [marshalEvent, marshalValue, marshalFields, marshalFieldsTail, hinner]
  exact ⟨_, rfl⟩

theorem marshalEvent_siteChanged_some (ts oldSite tabID newSite newURL : String) :
    ∃ out, marshalEvent (newSiteChangedEvent ts oldSite tabID newSite newURL) = some out := by
  apply marshalEvent_some_of_allStr
  intro p hp
  simp only [newSiteChangedEvent, newLogEvent, List.mem_cons, List.not_mem_nil,
    or_false] at hp
  rcases hp with h | h | h <;> exact ⟨_, by rw [h]⟩

theorem marshalEvent_siteEntered_some (ts site tabID fromSite url : String) :
    ∃ out, marshalEvent (newSiteEnteredEvent ts site tabID fromSite url) = some out := by
  apply marshalEvent_some_of_allStr
  intro p hp
  simp only [newSiteEnteredEvent, newLogEvent, List.mem_cons, List.not_mem_nil,
    or_false] at hp
  rcases hp with h | h <;> exact ⟨_, by rw [h]⟩

set_option maxRecDepth 40000 in
/-- Claim C4, counterexample: after the tab returns to a previously visited
site (a.com → b.com → a.com), the revisited site's file is reopened in append
mode, so its first record is the old `meta.site_changed`, not
`meta.site_entered` — refuting the claim's "the first record of the new file
is meta.site_entered". -/
theorem c4_first_record_counterexample :
    (handleSiteChange
        (handleSiteChange ⟨"tab-1", "a.com", "http://a/"⟩ (fileManagerNew 8192 100)
          "b.com" "http://b/x" "T1" "T2").2.1
        (handleSiteChange ⟨"tab-1", "a.com", "http://a/"⟩ (fileManagerNew 8192 100)
          "b.com" "http://b/x" "T1" "T2").2.2
        "a.com" "http://a/y" "T3" "T4").1 = true ∧
      listContainsSub "meta.site_changed".toList
        (takeLine (fileBytes
          (handleSiteChange
            (handleSiteChange ⟨"tab-1", "a.com", "http://a/"⟩ (fileManagerNew 8192 100)
              "b.com" "http://b/x" "T1" "T2").2.1
            (handleSiteChange ⟨"tab-1", "a.com", "http://a/"⟩ (fileManagerNew 8192 100)
              "b.com" "http://b/x" "T1" "T2").2.2
            "a.com" "http://a/y" "T3" "T4").2.2
          (fileKey "tab-1" "a.com"))) = true ∧
      listContainsSub "meta.site_entered".toList
        (takeLine (fileBytes
          (handleSiteChange
            (handleSiteChange ⟨"tab-1", "a.com", "http://a/"⟩ (fileManagerNew 8192 100)
              "b.com" "http://b/x" "T1" "T2").2.1
            (handleSiteChange ⟨"tab-1", "a.com", "http://a/"⟩ (fileManagerNew 8192 100)
              "b.com" "http://b/x" "T1" "T2").2.2
            "a.com" "http://a/y" "T3" "T4").2.2
          (fileKey "tab-1" "a.com"))) = false := by
  decide

/-- Claim C4, as amended: a same-site call updates only `current_url` and
returns false with the store untouched; a different-site call returns true,
updates `current_site`/`current_url`, appends the `meta.site_changed` record
as the last record of the old `(tab, old site)` file and closes it, and —
when that `(tab, new site)` pair has no open writer and no on-disk residue
from an earlier visit — makes the fsynced `meta.site_entered` record the
first (and only) record of the new file. -/
theorem c4_handleSiteChange_spec (tm : TabMonitor) (fm : FileManager)
    (newSite newURL ts1 ts2 : String) :
    (newSite = tm.currentSite →
      handleSiteChange tm fm newSite newURL ts1 ts2 =
        (false, { tm with currentURL := newURL }, fm)) ∧
    (¬ newSite = tm.currentSite →
      lookupA fm.files (fileKey tm.tabID newSite) = none →
      lookupA fm.disk (fileKey tm.tabID newSite) = none →
      (handleSiteChange tm fm newSite newURL ts1 ts2).1 = true ∧
      (handleSiteChange tm fm newSite newURL ts1 ts2).2.1 =
        { tm with currentSite := newSite, currentURL := newURL } ∧
      lookupA (handleSiteChange tm fm newSite newURL ts1 ts2).2.2.files
        (fileKey tm.tabID tm.currentSite) = none ∧
      (∃ line,
        marshalEvent (newSiteChangedEvent ts1 tm.currentSite tm.tabID newSite newURL) =
          some line ∧
        fileBytes (handleSiteChange tm fm newSite newURL ts1 ts2).2.2
            (fileKey tm.tabID tm.currentSite) =
          fileBytes fm (fileKey tm.tabID tm.currentSite) ++ line ++ ['\n']) ∧
      (∃ line,
        marshalEvent (newSiteEnteredEvent ts2 newSite tm.tabID tm.currentSite newURL) =
          some line ∧
        fileBytes (handleSiteChange tm fm newSite newURL ts1 ts2).2.2
            (fileKey tm.tabID newSite) = line ++ ['\n'] ∧
        diskContent (handleSiteChange tm fm newSite newURL ts1 ts2).2.2
            (fileKey tm.tabID newSite) = line ++ ['\n'])) := by
  constructor
  · intro hsame
    unfold handleSiteChange
    rw [if_pos hsame]
  · intro hne hf1 hf2
    have hkey : ¬ fileKey tm.tabID newSite = fileKey tm.tabID tm.currentSite :=
      fun h => hne (fileKey_site_inj _ _ _ h)
    have hkey' : ¬ fileKey tm.tabID tm.currentSite = fileKey tm.tabID newSite :=
      fun h => hne (fileKey_site_inj _ _ _ h).symm
    obtain ⟨line1, hm1⟩ :=
      marshalEvent_siteChanged_some ts1 tm.currentSite tm.tabID newSite newURL
    obtain ⟨line2, hm2⟩ :=
      marshalEvent_siteEntered_some ts2 newSite tm.tabID tm.currentSite newURL
    have hw1 := fmWriteEvent_meta_spec fm tm.tabID
      (newSiteChangedEvent ts1 tm.currentSite tm.tabID newSite newURL) line1 hm1 rfl
    rw [show (newSiteChangedEvent ts1 tm.currentSite tm.tabID newSite newURL).site =
      tm.currentSite from rfl] at hw1
    set fm1 := (fmWriteEvent fm tm.tabID
      (newSiteChangedEvent ts1 tm.currentSite tm.tabID newSite newURL)).1 with hfm1
    have hc := fmCloseTab_spec fm1 tm.tabID tm.currentSite
    set fm2 := (fmCloseTab fm1 tm.tabID tm.currentSite).1 with hfm2
    have hw2 := fmWriteEvent_meta_spec fm2 tm.tabID
      (newSiteEnteredEvent ts2 newSite tm.tabID tm.currentSite newURL) line2 hm2 rfl
    rw [show (newSiteEnteredEvent ts2 newSite tm.tabID tm.currentSite newURL).site =
      newSite from rfl] at hw2
    set fm3 := (fmWriteEvent fm2 tm.tabID
      (newSiteEnteredEvent ts2 newSite tm.tabID tm.currentSite newURL)).1 with hfm3
    have hrun : handleSiteChange tm fm newSite newURL ts1 ts2 =
        (true, { tm with currentSite := newSite, currentURL := newURL }, fm3) := by
      unfold handleSiteChange
      rw [if_neg hne]
    rw [hrun]
    obtain ⟨tw1, htw1, htw1b⟩ := hw1.2.2.1
    have hk2a := hw1.2.2.2 (fileKey tm.tabID newSite) hkey
    have hk2b := hc.2.2.2 (fileKey tm.tabID newSite) hkey
    have hclosed3 : lookupA fm3.files (fileKey tm.tabID tm.currentSite) = none := by
      rw [(hw2.2.2.2 (fileKey tm.tabID tm.currentSite) hkey').1, hc.2.1]
    have hfb2 : fileBytes fm2 (fileKey tm.tabID newSite) = [] := by
      rw [fileBytes_of_closed _ _ (by rw [hk2b.1, hk2a.1, hf1]), hk2b.2, hk2a.2]
      simp [diskContent, hf2]
    refine ⟨rfl, rfl, hclosed3, ⟨line1, hm1, ?_⟩, ⟨line2, hm2, ?_, ?_⟩⟩
    · -- bytes of the old file: closed, so disk only, ending in the record
      rw [fileBytes_of_closed _ _ hclosed3,
        (hw2.2.2.2 (fileKey tm.tabID tm.currentSite) hkey').2, hc.2.2.1,
        fileBytes_of_buffered_nil _ _ _ htw1 htw1b, hw1.2.1]
    · -- bytes of the new file: exactly the site_entered line
      obtain ⟨tw2, htw2, htw2b⟩ := hw2.2.2.1
      rw [fileBytes_of_buffered_nil _ _ _ htw2 htw2b, hw2.2.1, hfb2]
      simp
    · rw [hw2.2.1, hfb2]
      simp

/-- Claim C4 witness: a concrete a.com → b.com change on a fresh store
behaves as the amended claim states. -/
theorem c4_witness :
    ¬ "b.com" = "a.com" ∧
      ((handleSiteChange ⟨"tab-1", "a.com", "http://a/"⟩ (fileManagerNew 8192 100)
          "b.com" "http://b/x" "T1" "T2").1 = true ∧
        (handleSiteChange ⟨"tab-1", "a.com", "http://a/"⟩ (fileManagerNew 8192 100)
          "b.com" "http://b/x" "T1" "T2").2.1 = ⟨"tab-1", "b.com", "http://b/x"⟩ ∧
        lookupA (handleSiteChange ⟨"tab-1", "a.com", "http://a/"⟩
            (fileManagerNew 8192 100) "b.com" "http://b/x" "T1" "T2").2.2.files
          (fileKey "tab-1" "a.com") = none ∧
        (∃ line,
          marshalEvent (newSiteChangedEvent "T1" "a.com" "tab-1" "b.com" "http://b/x") =
            some line ∧
          fileBytes (handleSiteChange ⟨"tab-1", "a.com", "http://a/"⟩
              (fileManagerNew 8192 100) "b.com" "http://b/x" "T1" "T2").2.2
              (fileKey "tab-1" "a.com") =
            fileBytes (fileManagerNew 8192 100) (fileKey "tab-1" "a.com") ++
              line ++ ['\n']) ∧
        (∃ line,
          marshalEvent (newSiteEnteredEvent "T2" "b.com" "tab-1" "a.com" "http://b/x") =
            some line ∧
          fileBytes (handleSiteChange ⟨"tab-1", "a.com", "http://a/"⟩
              (fileManagerNew 8192 100) "b.com" "http://b/x" "T1" "T2").2.2
              (fileKey "tab-1" "b.com") = line ++ ['\n'] ∧
          diskContent (handleSiteChange ⟨"tab-1", "a.com", "http://a/"⟩
              (fileManagerNew 8192 100) "b.com" "http://b/x" "T1" "T2").2.2
              (fileKey "tab-1" "b.com") = line ++ ['\n'])) :=
  ⟨by decide,
    (c4_handleSiteChange_spec ⟨"tab-1", "a.com", "http://a/"⟩ (fileManagerNew 8192 100)
      "b.com" "http://b/x" "T1" "T2").2 (by decide) rfl rfl⟩

theorem sanitizeSiteName_unknown : sanitizeSiteName unknownSite = unknownSite := by
  decide

/-- Claim C6, counterexample: for the URL `http://[2001:db8::1]/` Go's
`url.Parse` yields hostname `2001:db8::1` (brackets stripped) with no port;
the code's sanitizer splits at the first colon and keeps only `2001`, while
the claim's sanitization (replace `: / \\ …` by `_`, truncate) would give
`2001_db8__1`. -/
theorem c6_extractSite_counterexample :
    extractSite (some ⟨"2001:db8::1", "", "http", ""⟩) = "2001" ∧
      specExtractSite (some ⟨"2001:db8::1", "", "http", ""⟩) = "2001_db8__1" ∧
      ¬ extractSite (some ⟨"2001:db8::1", "", "http", ""⟩) =
          specExtractSite (some ⟨"2001:db8::1", "", "http", ""⟩) := by
  decide

/-- Claim C6, as amended: `ExtractSite` equals the spec's case analysis
(parse failure or empty input → `unknown`; loopback host with a port →
host and port joined; other non-empty host → the host; scheme without host →
`scheme_opaque`; otherwise `unknown`) followed by the full sanitizer, where
the sanitizer first splits at the first colon — keeping `pre_post` when the
part before the colon is a loopback host and just the pre-colon part
otherwise — and then replaces each of `/ \\ : * ? " < > |` and space with `_`
and truncates to 255 bytes. -/
theorem c6_extractSite_amended (o : Option URLParts) :
    extractSite o = amendedExtractSite o := by
  cases o with
  | none => rfl
  | some u =>
    unfold extractSite amendedExtractSite amendedRawSite
    by_cases h1 : u.hostname = ""
    · by_cases h2 : u.scheme = ""
      · simp [h1, h2, sanitizeSiteName_unknown]
      · simp [h1, h2]
    · simp only [h1, if_neg, not_false_iff]
      split <;> rfl

theorem matchContentType_iff (actual pattern : Str) :
    matchContentType actual pattern = true ↔
      specContentTypeMatch (stripParams actual) pattern := by
  unfold matchContentType specContentTypeMatch
  by_cases hg : (['/', '*'].isSuffixOf pattern) = true
  · obtain ⟨t, ht⟩ : ∃ t, pattern = t ++ ['/', '*'] := by
    { obtain ⟨t, ht⟩ := List.isSuffixOf_iff_suffix.1 hg
      exact ⟨t, ht.symm⟩ }
    subst ht
    have htake : (t ++ ['/', '*']).take ((t ++ ['/', '*']).length - 2) = t := by
      have hlen : (t ++ ['/', '*']).length - 2 = t.length := by
        simp [List.length_append]
      rw [hlen]
      exact List.take_left t _
    simp only [hg, if_pos, htake]
    constructor
    · intro hpre
      obtain ⟨sub, hsub⟩ := List.isPrefixOf_iff_prefix.1 hpre
      exact Or.inl ⟨t, sub, rfl, by rw [← hsub]; simp⟩
    · intro h
      rcases h with ⟨t', sub, hpat, hstr⟩ | ⟨hno, -⟩
      · have ht' : t' = t := (List.append_cancel_right hpat.symm)
        subst ht'
        apply List.isPrefixOf_iff_prefix.2
        exact ⟨sub, by rw [hstr]; simp⟩
      · exact absurd ⟨t, rfl⟩ hno
  · simp only [hg, Bool.false_eq_true, if_false, decide_eq_true_eq]
    constructor
    · intro he
      refine Or.inr ⟨?_, he⟩
      rintro ⟨t, ht⟩
      exact hg (List.isSuffixOf_iff_suffix.2 ⟨t, ht.symm⟩)
    · intro h
      rcases h with ⟨t, sub, hpat, -⟩ | ⟨-, heq⟩
      · exact absurd (List.isSuffixOf_iff_suffix.2 ⟨t, hpat.symm⟩) hg
      · exact heq

/-- Claim C7: `shouldCaptureBody(mime, size)` is true exactly when the MIME,
lower-cased and stripped of parameters, matches one of the configured
content-type patterns (a `type/*` glob matching any subtype, or an exact
match) and the size is zero or at most `body_size_limit_kb * 1024` (for a
non-negative configured limit). -/
theorem c7_shouldCaptureBody_iff (cfg : CaptureConfig) (mime : Str) (size : Int)
    (hlim : 0 ≤ cfg.bodySizeLimitKB) :
    shouldCaptureBody cfg mime size = true ↔
      ((∃ p ∈ cfg.bodyContentTypes,
          specContentTypeMatch (stripParams (lowerStr mime)) p) ∧
        (size = 0 ∨ size ≤ cfg.bodySizeLimitKB * 1024)) := by
  have hmax : (0 : Int) ≤ cfg.bodySizeLimitKB * 1024 := by positivity
  unfold shouldCaptureBody
  dsimp only
  by_cases hs : size > cfg.bodySizeLimitKB * 1024 ∧ size > 0
  · rw [if_pos hs]
    simp only [Bool.false_eq_true, false_iff]
    rintro ⟨-, hsz⟩
    omega
  · rw [if_neg hs]
    simp only [List.any_eq_true]
    constructor
    · rintro ⟨p, hp, hm⟩
      refine ⟨⟨p, hp, (matchContentType_iff _ _).1 hm⟩, ?_⟩
      omega
    · rintro ⟨⟨p, hp, hm⟩, -⟩
      exact ⟨p, hp, (matchContentType_iff _ _).2 hm⟩

/-- Claim C7 witness: with the default configuration (limit 10 KB, patterns
`text/*` and `application/json`), a 512-byte `text/html; charset=utf-8`
response is captured. -/
theorem c7_witness :
    (0 : Int) ≤ 10 ∧
      (shouldCaptureBody ⟨10, ["text/*".toList, "application/json".toList]⟩
          "text/html; charset=utf-8".toList 512 = true ↔
        ((∃ p ∈ ["text/*".toList, "application/json".toList],
            specContentTypeMatch
              (stripParams (lowerStr "text/html; charset=utf-8".toList)) p) ∧
          ((512 : Int) = 0 ∨ (512 : Int) ≤ 10 * 1024))) :=
  ⟨by decide,
    c7_shouldCaptureBody_iff ⟨10, ["text/*".toList, "application/json".toList]⟩
      "text/html; charset=utf-8".toList 512 (by decide)⟩

/-! ## Tab-registry lemmas (claim C2) -/

theorem charOfNat_toNat_of_valid (n : Nat) (h : n.isValidChar) :
    (Char.ofNat n).toNat = n := by
  rw [Char.ofNat, dif_pos h]
  rfl

theorem generateTabID_safe_eq (c : Nat) (h1 : 1 ≤ c) (h2 : c ≤ 55247) :
    generateTabID c = "tab-" ++ String.singleton (Char.ofNat (48 + c)) := by
  have hch : ¬ ('0' = Char.ofNat (48 + c)) := by
    intro he
    have ht := charOfNat_toNat_of_valid (48 + c) (Or.inl (by omega))
    rw [← he] at ht
    have h0 : ('0' : Char).toNat = 48 := rfl
    omega
  unfold generateTabID runeToString
  rw [if_pos (Or.inl (by omega))]
  unfold trimPrefixStr
  rw [if_neg ?hpre]
  case hpre =>
    show ¬ ("0".toList.isPrefixOf (String.singleton (Char.ofNat (48 + c))).toList = true)
    simp [List.isPrefixOf, String.singleton, hch]

theorem generateTabID_safe_inj (c1 c2 : Nat) (h11 : 1 ≤ c1) (h12 : c1 ≤ 55247)
    (h21 : 1 ≤ c2) (h22 : c2 ≤ 55247)
    (he : generateTabID c1 = generateTabID c2) : c1 = c2 := by
  rw [generateTabID_safe_eq c1 h11 h12, generateTabID_safe_eq c2 h21 h22] at he
  have hd := congrArg String.data he
  rw [String.data_append, String.data_append] at hd
  have hch : Char.ofNat (48 + c1) = Char.ofNat (48 + c2) := by
    have hc := List.append_cancel_left hd
    simpa [String.singleton] using hc
  have ht1 := charOfNat_toNat_of_valid (48 + c1) (Or.inl (by omega))
  have ht2 := charOfNat_toNat_of_valid (48 + c2) (Or.inl (by omega))
  rw [hch] at ht1
  omega

theorem map_snd_nodup_inj :
    ∀ (h : List (String × String)), (h.map Prod.snd).Nodup →
      ∀ p ∈ h, ∀ q ∈ h, p.2 = q.2 → p = q
  | [], _, p, hp, _, _, _ => absurd hp (List.not_mem_nil p)
  | x :: t, hn, p, hp, q, hq, he => by
    simp only [List.map_cons, List.nodup_cons] at hn
    rcases List.mem_cons.1 hp with rfl | hp' <;> rcases List.mem_cons.1 hq with rfl | hq'
    · rfl
    · exact absurd (he ▸ List.mem_map_of_mem Prod.snd hq') hn.1
    · exact absurd (he ▸ List.mem_map_of_mem Prod.snd hp') hn.1
    · exact map_snd_nodup_inj t hn.2 p hp' q hq' he

theorem traceStep_counter (t : RegTrace) (op : RegOp) :
    (traceStep t op).reg.counter ≤ t.reg.counter + 1 := by
  cases op with
  | getOp tid =>
    unfold traceStep
    cases h : lookupA t.reg.targetToTab tid <;>
      simp [h, getOrCreateTabID]
  | removeOp tid => simp [traceStep, removeTarget]

theorem traceStep_getOp_some (t : RegTrace) (tid tid0 : String)
    (h : lookupA t.reg.targetToTab tid = some tid0) :
    traceStep t (RegOp.getOp tid) = t := by
  simp [traceStep, h, getOrCreateTabID]

theorem traceStep_getOp_none (t : RegTrace) (tid : String)
    (h : lookupA t.reg.targetToTab tid = none) :
    traceStep t (RegOp.getOp tid) =
      { reg := ⟨t.reg.counter + 1,
          (tid, generateTabID (t.reg.counter + 1)) :: t.reg.targetToTab⟩,
        hist := (tid, generateTabID (t.reg.counter + 1)) :: t.hist } := by
  simp [traceStep, h, getOrCreateTabID]

theorem regInv_step (t : RegTrace) (op : RegOp) (hi : RegInvP t)
    (hc : (traceStep t op).reg.counter ≤ 55247) : RegInvP (traceStep t op) := by
  obtain ⟨hcnt, hgen, hnd, hsub⟩ := hi
  cases op with
  | removeOp tid =>
    refine ⟨hcnt, hgen, hnd, ?_⟩
    intro q hq
    exact hsub q (mem_of_mem_removeA _ _ _ hq)
  | getOp tid =>
    cases h : lookupA t.reg.targetToTab tid with
    | some tid0 =>
      rw [traceStep_getOp_some t tid tid0 h]
      exact ⟨hcnt, hgen, hnd, hsub⟩
    | none =>
      rw [traceStep_getOp_none t tid h] at hc ⊢
      unfold RegInvP
      dsimp only at hc ⊢
      have hc' : t.reg.counter + 1 ≤ 55247 := hc
      refine ⟨hc', ?_, ?_, ?_⟩
      · intro p hp
        rcases List.mem_cons.1 hp with rfl | hp'
        · exact ⟨t.reg.counter + 1, by omega, le_refl _, rfl⟩
        · obtain ⟨c, hc1, hc2, hc3⟩ := hgen p hp'
          exact ⟨c, hc1, by omega, hc3⟩
      · simp only [List.map_cons, List.nodup_cons]
        refine ⟨?_, hnd⟩
        intro hmem
        obtain ⟨p, hp, hpe⟩ := List.mem_map.1 hmem
        obtain ⟨c, hc1, hc2, hc3⟩ := hgen p hp
        rw [hc3] at hpe
        have := generateTabID_safe_inj c (t.reg.counter + 1) hc1 (by omega)
          (by omega) hc' hpe
        omega
      · intro q hq
        rcases List.mem_cons.1 hq with rfl | hq'
        · exact List.mem_cons_self _ _
        · exact List.mem_cons_of_mem _ (hsub q hq')

theorem regInv_run :
    ∀ (ops : List RegOp) (t : RegTrace), RegInvP t →
      t.reg.counter + ops.length ≤ 55247 →
      RegInvP (runTrace t ops) ∧
        (runTrace t ops).reg.counter ≤ t.reg.counter + ops.length
  | [], t, hi, _ => ⟨hi, by simp [runTrace]⟩
  | op :: ops, t, hi, hc => by
    have hsc := traceStep_counter t op
    have hinv := regInv_step t op hi (by simp at hc; omega)
    have hrec := regInv_run ops (traceStep t op) hinv (by simp at hc; omega)
    have hfold : runTrace t (op :: ops) = runTrace (traceStep t op) ops := rfl
    rw [hfold]
    refine ⟨hrec.1, ?_⟩
    have := hrec.2
    simp only [List.length_cons]
    omega

theorem regLookup_preserved_step (r : TabRegistry) (op : RegOp) (t tid : String)
    (h : lookupA r.targetToTab t = some tid) (hop : ¬ op = RegOp.removeOp t) :
    lookupA (regStep r op).targetToTab t = some tid := by
  cases op with
  | getOp t' =>
    cases h' : lookupA r.targetToTab t' with
    | some tid0 => simpa [regStep, getOrCreateTabID, h'] using h
    | none =>
      have hne : ¬ t' = t := by
        intro he
        rw [he, h] at h'
        exact Option.noConfusion h'
      simp [regStep, getOrCreateTabID, h', lookupA, hne, h]
  | removeOp t' =>
    have hne : ¬ t = t' := by
      intro he
      exact hop (by rw [he])
    simp only [regStep, removeTarget]
    rw [lookupA_removeA_ne _ _ _ hne]
    exact h

/-- Claim C2, counterexample: after `RemoveTarget`, a new `GetOrCreateTabID`
for the same TargetID assigns a fresh TabID (tab-2 instead of the original
tab-1), refuting "every subsequent call … including after any interleaved
RemoveTarget returns the same TabID"; moreover, once the counter leaves the
single-code-point range, the (buggy) renderer maps two distinct counters to
the same name, so unbounded allocation would even break injectivity. -/
theorem c2_registry_counterexample :
    (getOrCreateTabID regInit "target-A").1 = "tab-1" ∧
      (getOrCreateTabID (removeTarget (getOrCreateTabID regInit "target-A").2
        "target-A") "target-A").1 = "tab-2" ∧
      ¬ (getOrCreateTabID (removeTarget (getOrCreateTabID regInit "target-A").2
        "target-A") "target-A").1 = (getOrCreateTabID regInit "target-A").1 ∧
      generateTabID 55248 = generateTabID 55249 := by
  decide

/-- Claim C2, as amended: a TargetID present in the registry keeps its TabID —
`GetOrCreateTabID` returns the stored name and leaves the registry unchanged,
a fresh call stores the name it returns, and the binding survives any
sequence of calls that contains no `RemoveTarget` for that TargetID; and
along any run from process start of at most 55247 allocations (the range on
which the single-rune renderer is injective; claim C1 records the renderer
bug), distinct TargetIDs are never assigned the same TabID, even across
removals. -/
theorem c2_registry_spec :
    (∀ (r : TabRegistry) (t tid : String), lookupA r.targetToTab t = some tid →
      getOrCreateTabID r t = (tid, r)) ∧
    (∀ (r : TabRegistry) (t : String),
      lookupA ((getOrCreateTabID r t).2).targetToTab t =
        some (getOrCreateTabID r t).1) ∧
    (∀ (r : TabRegistry) (t tid : String) (ops : List RegOp),
      lookupA r.targetToTab t = some tid →
      (∀ op ∈ ops, ¬ op = RegOp.removeOp t) →
      lookupA (runOps r ops).targetToTab t = some tid) ∧
    (∀ (ops : List RegOp), ops.length ≤ 55247 →
      ∀ t1 t2 tid, (t1, tid) ∈ (runTrace traceInit ops).hist →
        (t2, tid) ∈ (runTrace traceInit ops).hist → t1 = t2) := by
  refine ⟨?_, ?_, ?_, ?_⟩
  · intro r t tid h
    simp [getOrCreateTabID, h]
  · intro r t
    cases h : lookupA r.targetToTab t with
    | some tid =>
      rw [show getOrCreateTabID r t = (tid, r) from by simp [getOrCreateTabID, h]]
      exact h
    | none => simp [getOrCreateTabID, h, lookupA]
  · intro r t tid ops
    induction ops generalizing r with
    | nil => intro h _; simpa [runOps] using h
    | cons op ops ih =>
      intro h hops
      have hstep := regLookup_preserved_step r op t tid h
        (hops op (List.mem_cons_self _ _))
      have hfold : runOps r (op :: ops) = runOps (regStep r op) ops := rfl
      rw [hfold]
      exact ih (regStep r op) hstep (fun o ho => hops o (List.mem_cons_of_mem _ ho))
  · intro ops hlen t1 t2 tid h1 h2
    have hinit : RegInvP traceInit := by
      refine ⟨by simp [traceInit, regInit], ?_, ?_, ?_⟩
      · intro p hp
        exact absurd hp (List.not_mem_nil p)
      · simp [traceInit]
      · intro q hq
        exact absurd hq (List.not_mem_nil q)
    have hrun := regInv_run ops traceInit hinit
      (by simp [traceInit, regInit]; omega)
    have := map_snd_nodup_inj (runTrace traceInit ops).hist hrun.1.2.2.1
      (t1, tid) h1 (t2, tid) h2 rfl
    exact congrArg Prod.fst this

/-- Claim C2 witness: a stored binding is returned unchanged, survives an
unrelated allocation, and in a two-allocation run from process start the
assignment history is injective. -/
theorem c2_witness :
    lookupA (TabRegistry.mk 1 [("tA", "tab-1")]).targetToTab "tA" = some "tab-1" ∧
      getOrCreateTabID ⟨1, [("tA", "tab-1")]⟩ "tA" =
        ("tab-1", ⟨1, [("tA", "tab-1")]⟩) ∧
      lookupA (runOps ⟨1, [("tA", "tab-1")]⟩ [RegOp.getOp "tB"]).targetToTab "tA" =
        some "tab-1" ∧
      ("x" : String) = "x" :=
  ⟨by decide,
    c2_registry_spec.1 ⟨1, [("tA", "tab-1")]⟩ "tA" "tab-1" (by decide),
    c2_registry_spec.2.2.1 ⟨1, [("tA", "tab-1")]⟩ "tA" "tab-1" [RegOp.getOp "tB"]
      (by decide) (by decide),
    c2_registry_spec.2.2.2 [RegOp.getOp "x", RegOp.getOp "y"] (by decide)
      "x" "x" "tab-1" (by decide) (by decide)⟩

/-! ## Redactor lemmas (claim C8) -/

theorem redactHeaders_disabled (r : Redactor) (h : Option (List (String × JValue)))
    (he : r.enabled = false) : redactHeaders r h = h := by
  simp [redactHeaders, he]

theorem redactBody_disabled (r : Redactor) (b : Str) (he : r.enabled = false) :
    redactBody r b = b := by
  simp [redactBody, he]

theorem map_idem_of_pointwise {α : Type} (f : α → α)
    (hf : ∀ a, f (f a) = f a) (l : List α) : (l.map f).map f = l.map f := by
  induction l with
  | nil => rfl
  | cons a l ih => simp [hf, ih]

theorem redactHeaders_idem (r : Redactor) (h : Option (List (String × JValue))) :
    redactHeaders r (redactHeaders r h) = redactHeaders r h := by
  by_cases he : r.enabled = false
  · simp [redactHeaders, he]
  · cases h with
    | none => simp [redactHeaders, if_neg he]
    | some hs =>
      simp only [redactHeaders, if_neg he]
      rw [map_idem_of_pointwise]
      intro kv
      by_cases hk : shouldRedactHeader r kv.1 = true
      · simp [hk]
      · simp [hk]

mutual

theorem redactValue_idem (r : Redactor) :
    ∀ v : JValue, redactValue r (redactValue r v) = redactValue r v
  | .null => rfl
  | .bool _ => rfl
  | .num _ => rfl
  | .str _ => rfl
  | .unser _ => rfl
  | .obj fields => by
    simp only [redactValue]
    rw [redactMap_idem r fields]
  | .arr elems => by
    simp only [redactValue]
    rw [redactSlice_idem r elems]

theorem redactMap_idem (r : Redactor) :
    ∀ fs : List (Str × JValue), redactMap r (redactMap r fs) = redactMap r fs
  | [] => rfl
  | (k, v) :: fs => by
    by_cases hk : shouldRedactBodyField r k = true
    · have h1 : redactMap r ((k, v) :: fs)
          = (k, .str redactedValue.toList) :: redactMap r fs := by
        simp [redactMap, hk]
      rw [h1]
      simp [redactMap, hk, redactMap_idem r fs]
    · have h1 : redactMap r ((k, v) :: fs)
          = (k, redactValue r v) :: redactMap r fs := by
        simp [redactMap, hk]
      rw [h1]
      simp [redactMap, hk, redactValue_idem r v, redactMap_idem r fs]

theorem redactSlice_idem (r : Redactor) :
    ∀ vs : List JValue, redactSlice r (redactSlice r vs) = redactSlice r vs
  | [] => rfl
  | v :: vs => by
    simp only [redactSlice]
    rw [redactValue_idem r v, redactSlice_idem r vs]

end

/-! ## JSON codec round-trip (claim C8)

The idempotence of `RedactBody` rests on the codec law
`unmarshal (marshalValue v) = some v`, proved below by fuel induction on the
parser against the structure of the rendered value. -/

theorem jsizeVal_pos (v : JValue) : 1 ≤ jsizeVal v := by
  cases v <;> simp [jsizeVal]

theorem digitChar_isDigit (d : Nat) (h : d < 10) : (digitChar d).isDigit = true := by
  interval_cases d <;> decide

theorem digitVal_digitChar (d : Nat) (h : d < 10) : digitVal (digitChar d) = d := by
  interval_cases d <;> decide

theorem natCharsAux_digits :
    ∀ fuel n : Nat, ∀ c ∈ natCharsAux fuel n, c.isDigit = true
  | 0, n => by simp [natCharsAux]
  | fuel + 1, n => by
    intro c hc
    unfold natCharsAux at hc
    by_cases h : n = 0
    · simp [h] at hc
    · rw [if_neg h] at hc
      rcases List.mem_append.1 hc with h1 | h1
      · exact natCharsAux_digits fuel (n / 10) c h1
      · rw [List.mem_singleton] at h1
        subst h1
        exact digitChar_isDigit _ (Nat.mod_lt _ (by omega))

theorem natChars_digits (n : Nat) : ∀ c ∈ natChars n, c.isDigit = true := by
  intro c hc
  unfold natChars at hc
  by_cases h : n = 0
  · rw [if_pos h, List.mem_singleton] at hc
    subst hc
    decide
  · rw [if_neg h] at hc
    exact natCharsAux_digits n n c hc

theorem natChars_ne_nil (n : Nat) : ¬ natChars n = [] := by
  unfold natChars
  by_cases h : n = 0
  · simp [h]
  · rw [if_neg h]
    cases n with
    | zero => exact absurd rfl h
    | succ m =>
      unfold natCharsAux
      rw [if_neg h]
      simp

theorem digitsToNat_append_digit (l : Str) (c : Char) :
    digitsToNat (l ++ [c]) = 10 * digitsToNat l + digitVal c := by
  simp [digitsToNat, List.foldl_append]

theorem digitsToNat_natCharsAux :
    ∀ fuel n : Nat, n ≤ fuel → digitsToNat (natCharsAux fuel n) = n
  | 0, n, h => by
    have hn : n = 0 := by omega
    simp [natCharsAux, hn, digitsToNat]
  | fuel + 1, n, h => by
    by_cases hn : n = 0
    · simp [natCharsAux, hn, digitsToNat]
    · rw [natCharsAux, if_neg hn, digitsToNat_append_digit,
        digitsToNat_natCharsAux fuel (n / 10) (by omega),
        digitVal_digitChar _ (Nat.mod_lt _ (by omega))]
      omega

theorem digitsToNat_natChars (n : Nat) : digitsToNat (natChars n) = n := by
  unfold natChars
  by_cases h : n = 0
  · simp [h, digitsToNat, digitVal]
  · rw [if_neg h]
    exact digitsToNat_natCharsAux n n (le_refl n)

theorem span_digits_append (ds rest : Str) (hds : ∀ c ∈ ds, c.isDigit = true)
    (hrest : headSafe rest) :
    (ds ++ rest).takeWhile Char.isDigit = ds ∧
      (ds ++ rest).dropWhile Char.isDigit = rest := by
  induction ds with
  | nil =>
    cases rest with
    | nil => simp
    | cons c t =>
      have hc : c.isDigit = false := hrest
      simp [List.takeWhile_cons, List.dropWhile_cons, hc]
  | cons d ds ih =>
    have hd := hds d (List.mem_cons_self _ _)
    have hr := ih fun c hc => hds c (List.mem_cons_of_mem _ hc)
    simp [List.takeWhile_cons, List.dropWhile_cons, hd, hr.1, hr.2]

theorem natChars_cons (n : Nat) : ∃ c t, natChars n = c :: t ∧ c.isDigit = true := by
  cases h : natChars n with
  | nil => exact absurd h (natChars_ne_nil n)
  | cons c t =>
    refine ⟨c, t, rfl, natChars_digits n c ?_⟩
    rw [h]
    exact List.mem_cons_self c t

theorem isDigit_not_marker (c : Char) (h : c.isDigit = true) :
    ¬ c = 'n' ∧ ¬ c = 't' ∧ ¬ c = 'f' ∧ ¬ c = '"' ∧ ¬ c = '[' ∧ ¬ c = '\x7b' ∧
      ¬ c = ']' ∧ ¬ c = '\x7d' ∧ ¬ c = '-' := by
  refine ⟨?_, ?_, ?_, ?_, ?_, ?_, ?_, ?_, ?_⟩ <;>
    (intro hc; subst hc; revert h; decide)

theorem parseStringBody_quote (rest : Str) :
    parseStringBody ('"' :: rest) = some ([], rest) := by
  conv_lhs => rw [parseStringBody.eq_def]
  simp

theorem parseStringBody_backslash (e : Char) (rest2 : Str) :
    parseStringBody ('\\' :: e :: rest2)
      = (parseStringBody rest2).map fun p => (e :: p.1, p.2) := by
  conv_lhs => rw [parseStringBody.eq_def]
  simp

theorem parseStringBody_other (c : Char) (rest : Str) (h1 : ¬ c = '"') (h2 : ¬ c = '\\') :
    parseStringBody (c :: rest) = (parseStringBody rest).map fun p => (c :: p.1, p.2) := by
  conv_lhs => rw [parseStringBody.eq_def]
  simp [h1, h2]

theorem parseStringBody_escape :
    ∀ s rest : Str, parseStringBody (escapeChars s ++ '"' :: rest) = some (s, rest)
  | [], rest => by
    show parseStringBody ('"' :: rest) = some ([], rest)
    exact parseStringBody_quote rest
  | c :: s, rest => by
    by_cases hc : c = '"' ∨ c = '\\'
    · have he : escapeChars (c :: s) = '\\' :: c :: escapeChars s := by
        conv_lhs => rw [escapeChars.eq_def]
        dsimp only
        rw [if_pos hc]
      rw [he, List.cons_append, List.cons_append, parseStringBody_backslash,
        parseStringBody_escape s rest]
      rfl
    · have h1 : ¬ c = '"' := fun h => hc (Or.inl h)
      have h2 : ¬ c = '\\' := fun h => hc (Or.inr h)
      have he : escapeChars (c :: s) = c :: escapeChars s := by
        conv_lhs => rw [escapeChars.eq_def]
        dsimp only
        rw [if_neg hc]
      rw [he, List.cons_append, parseStringBody_other c _ h1 h2,
        parseStringBody_escape s rest]
      rfl

theorem parseNumber_neg (rest : Str) :
    parseNumber ('-' :: rest)
      = if rest.takeWhile Char.isDigit = [] then none
        else some (.num (-(digitsToNat (rest.takeWhile Char.isDigit) : Int)),
          rest.dropWhile Char.isDigit) := by
  conv_lhs => rw [parseNumber.eq_def]
  simp

theorem parseNumber_nonNeg (c : Char) (rest : Str) (h : ¬ c = '-') :
    parseNumber (c :: rest)
      = if (c :: rest).takeWhile Char.isDigit = [] then none
        else some (.num (digitsToNat ((c :: rest).takeWhile Char.isDigit) : Int),
          (c :: rest).dropWhile Char.isDigit) := by
  conv_lhs => rw [parseNumber.eq_def]
  simp [h]

theorem parseNumber_intChars (i : Int) (rest : Str) (hr : headSafe rest) :
    parseNumber (intChars i ++ rest) = some (.num i, rest) := by
  by_cases hi : i < 0
  · have he : intChars i = '-' :: natChars i.natAbs := by
      simp [intChars, hi]
    have hspan := span_digits_append (natChars i.natAbs) rest
      (natChars_digits i.natAbs) hr
    rw [he]
    show parseNumber ('-' :: (natChars i.natAbs ++ rest)) = _
    rw [parseNumber_neg, hspan.1, hspan.2, if_neg (natChars_ne_nil i.natAbs),
      digitsToNat_natChars]
    have h2 : -((i.natAbs : Nat) : Int) = i := by omega
    rw [h2]
  · have he : intChars i = natChars i.natAbs := by
      simp [intChars, hi]
    obtain ⟨c, t, hct, hcd⟩ := natChars_cons i.natAbs
    have hspan := span_digits_append (natChars i.natAbs) rest
      (natChars_digits i.natAbs) hr
    have hnd := isDigit_not_marker c hcd
    rw [he, hct]
    rw [hct] at hspan
    have hspan1 : ((c :: t) ++ rest).takeWhile Char.isDigit = c :: t := hspan.1
    have hspan2 : ((c :: t) ++ rest).dropWhile Char.isDigit = rest := hspan.2
    rw [List.cons_append, parseNumber_nonNeg c _ hnd.2.2.2.2.2.2.2.2, ← List.cons_append,
      hspan1, hspan2, if_neg (by simp)]
    have hd : digitsToNat (c :: t) = i.natAbs := by
      rw [← hct, digitsToNat_natChars]
    rw [hd]
    have h2 : ((i.natAbs : Nat) : Int) = i := by omega
    rw [h2]

/-! Dispatch equations for `parseVal` on a head character that selects the
array, object, or number branch. -/

theorem parseVal_null (fuel : Nat) (rest : Str) :
    parseVal (fuel + 1) ('n' :: 'u' :: 'l' :: 'l' :: rest) = some (.null, rest) := by
  conv_lhs => rw [parseVal.eq_def]
  simp [List.isPrefixOf_iff_prefix, List.prefix_append]

theorem parseVal_true (fuel : Nat) (rest : Str) :
    parseVal (fuel + 1) ('t' :: 'r' :: 'u' :: 'e' :: rest) = some (.bool true, rest) := by
  conv_lhs => rw [parseVal.eq_def]
  simp [List.isPrefixOf_iff_prefix, List.prefix_append]

theorem parseVal_false (fuel : Nat) (rest : Str) :
    parseVal (fuel + 1) ('f' :: 'a' :: 'l' :: 's' :: 'e' :: rest)
      = some (.bool false, rest) := by
  conv_lhs => rw [parseVal.eq_def]
  simp [List.isPrefixOf_iff_prefix, List.prefix_append]

theorem parseVal_quote (fuel : Nat) (s : Str) :
    parseVal (fuel + 1) ('"' :: s)
      = (parseStringBody s).map fun p => (JValue.str p.1, p.2) := by
  conv_lhs => rw [parseVal.eq_def]
  simp

theorem parseVal_arr_nil (fuel : Nat) (rest2 : Str) :
    parseVal (fuel + 1) ('[' :: ']' :: rest2) = some (.arr [], rest2) := by
  conv_lhs => rw [parseVal.eq_def]
  simp

theorem parseVal_arr_cons (fuel : Nat) (r0 : Char) (rest2 : Str) (h : ¬ r0 = ']') :
    parseVal (fuel + 1) ('[' :: r0 :: rest2)
      = (parseElems fuel (r0 :: rest2)).map fun p => (JValue.arr p.1, p.2) := by
  conv_lhs => rw [parseVal.eq_def]
  simp [h]

theorem parseVal_obj_nil (fuel : Nat) (rest2 : Str) :
    parseVal (fuel + 1) ('\x7b' :: '\x7d' :: rest2) = some (.obj [], rest2) := by
  conv_lhs => rw [parseVal.eq_def]
  simp

theorem parseVal_obj_cons (fuel : Nat) (r0 : Char) (rest2 : Str) (h : ¬ r0 = '\x7d') :
    parseVal (fuel + 1) ('\x7b' :: r0 :: rest2)
      = (parseMembers fuel (r0 :: rest2)).map fun p => (JValue.obj p.1, p.2) := by
  conv_lhs => rw [parseVal.eq_def]
  simp [h]

theorem parseVal_number (fuel : Nat) (c : Char) (rest : Str)
    (h1 : ¬ c = 'n') (h2 : ¬ c = 't') (h3 : ¬ c = 'f') (h4 : ¬ c = '"')
    (h5 : ¬ c = '[') (h6 : ¬ c = '\x7b') :
    parseVal (fuel + 1) (c :: rest) = parseNumber (c :: rest) := by
  conv_lhs => rw [parseVal.eq_def]
  simp [h1, h2, h3, h4, h5, h6]

theorem marshal_head (v : JValue) (out : Str) (h : marshalValue v = some out) :
    ∃ c t, out = c :: t ∧ ¬ c = ']' ∧ ¬ c = '\x7d' := by
  cases v with
  | null =>
    simp only [marshalValue, Option.some_inj] at h
    exact ⟨'n', _, h.symm, by decide, by decide⟩
  | bool b =>
    cases b <;> simp only [marshalValue, Option.some_inj] at h
    · exact ⟨'f', _, h.symm, by decide, by decide⟩
    · exact ⟨'t', _, h.symm, by decide, by decide⟩
  | num i =>
    simp only [marshalValue, Option.some_inj] at h
    by_cases hi : i < 0
    · have he : intChars i = '-' :: natChars i.natAbs := by
        simp [intChars, hi]
      exact ⟨'-', _, by rw [← h, he], by decide, by decide⟩
    · have he : intChars i = natChars i.natAbs := by
        simp [intChars, hi]
      obtain ⟨c, t, hct, hcd⟩ := natChars_cons i.natAbs
      have hnd := isDigit_not_marker c hcd
      exact ⟨c, t, by rw [← h, he, hct], hnd.2.2.2.2.2.2.1, hnd.2.2.2.2.2.2.2.1⟩
  | str s =>
    simp only [marshalValue, Option.some_inj] at h
    exact ⟨'"', _, h.symm, by decide, by decide⟩
  | arr vs =>
    cases hm : marshalElems vs with
    | none => simp [marshalValue, hm] at h
    | some body =>
      simp only [marshalValue, hm, Option.some_inj] at h
      exact ⟨'[', _, h.symm, by decide, by decide⟩
  | obj fs =>
    cases hm : marshalFields fs with
    | none => simp [marshalValue, hm] at h
    | some body =>
      simp only [marshalValue, hm, Option.some_inj] at h
      exact ⟨'\x7b', _, h.symm, by decide, by decide⟩
  | unser d => simp [marshalValue] at h

theorem marshal_ne_nil (v : JValue) (out : Str) (h : marshalValue v = some out) :
    ¬ out = [] := by
  obtain ⟨c, t, hct, -, -⟩ := marshal_head v out h
  rw [hct]
  simp

theorem headSafe_elemsTail (vs : List JValue) (tl : Str)
    (h : marshalElemsTail vs = some tl) (c : Char) (hc : c.isDigit = false)
    (rest : Str) : headSafe (tl ++ c :: rest) := by
  cases vs with
  | nil =>
    simp only [marshalElemsTail, Option.some_inj] at h
    rw [← h]
    exact hc
  | cons v vs =>
    cases hm1 : marshalValue v with
    | none => simp [marshalElemsTail, hm1] at h
    | some hd =>
      cases hm2 : marshalElemsTail vs with
      | none => simp [marshalElemsTail, hm1, hm2] at h
      | some tl2 =>
        simp only [marshalElemsTail, hm1, hm2, Option.some_inj] at h
        rw [← h]
        show (',' : Char).isDigit = false
        decide

theorem headSafe_fieldsTail (fs : List (Str × JValue)) (tl : Str)
    (h : marshalFieldsTail fs = some tl) (c : Char) (hc : c.isDigit = false)
    (rest : Str) : headSafe (tl ++ c :: rest) := by
  cases fs with
  | nil =>
    simp only [marshalFieldsTail, Option.some_inj] at h
    rw [← h]
    exact hc
  | cons kv fs =>
    obtain ⟨k, v⟩ := kv
    cases hm1 : marshalValue v with
    | none => simp [marshalFieldsTail, hm1] at h
    | some mv =>
      cases hm2 : marshalFieldsTail fs with
      | none => simp [marshalFieldsTail, hm1, hm2] at h
      | some tl2 =>
        simp only [marshalFieldsTail, hm1, hm2, Option.some_inj] at h
        rw [← h]
        show (',' : Char).isDigit = false
        decide

/-! Fuel-sufficiency: the rendered length bounds the parse fuel needed. -/

mutual

theorem jsize_le_mlen : ∀ v : JValue, ∀ out : Str, marshalValue v = some out →
    jsizeVal v ≤ out.length
  | .null, out, h => by
    simp only [marshalValue, Option.some_inj] at h
    rw [← h]
    decide
  | .bool b, out, h => by
    cases b <;> simp only [marshalValue, Option.some_inj] at h <;> rw [← h] <;> decide
  | .num i, out, h => by
    simp only [marshalValue, Option.some_inj] at h
    have h1 : 1 ≤ (intChars i).length := by
      by_cases hi : i < 0
      · simp [intChars, hi]
      · have he : intChars i = natChars i.natAbs := by simp [intChars, hi]
        obtain ⟨c, t, hct, -⟩ := natChars_cons i.natAbs
        rw [he, hct]
        simp
    rw [← h]
    exact h1
  | .str s, out, h => by
    simp only [marshalValue, Option.some_inj] at h
    rw [← h]
    simp [jsizeVal, quoteChars]
  | .arr vs, out, h => by
    cases hm : marshalElems vs with
    | none => simp [marshalValue, hm] at h
    | some body =>
      simp only [marshalValue, hm, Option.some_inj] at h
      have hb := jsizeElems_le_head vs body hm
      rw [← h]
      simp only [jsizeVal, List.length_cons, List.length_append, List.length_singleton]
      omega
  | .obj fs, out, h => by
    cases hm : marshalFields fs with
    | none => simp [marshalValue, hm] at h
    | some body =>
      simp only [marshalValue, hm, Option.some_inj] at h
      have hb := jsizeFields_le_head fs body hm
      rw [← h]
      simp only [jsizeVal, List.length_cons, List.length_append, List.length_singleton]
      omega
  | .unser d, out, h => by simp [marshalValue] at h

theorem jsizeElems_le_head : ∀ vs : List JValue, ∀ body : Str,
    marshalElems vs = some body → jsizeElems vs ≤ body.length + 1
  | [], body, h => by
    simp only [marshalElems, Option.some_inj] at h
    rw [← h]
    decide
  | v :: vs, body, h => by
    cases hm1 : marshalValue v with
    | none => simp [marshalElems, hm1] at h
    | some hd =>
      cases hm2 : marshalElemsTail vs with
      | none => simp [marshalElems, hm1, hm2] at h
      | some tl =>
        simp only [marshalElems, hm1, hm2, Option.some_inj] at h
        have h1 := jsize_le_mlen v hd hm1
        have h2 := jsizeElems_le_tail vs tl hm2
        rw [← h]
        simp only [jsizeElems, List.length_append]
        omega

theorem jsizeElems_le_tail : ∀ vs : List JValue, ∀ tl : Str,
    marshalElemsTail vs = some tl → jsizeElems vs ≤ tl.length
  | [], tl, h => by
    simp only [marshalElemsTail, Option.some_inj] at h
    rw [← h]
    decide
  | v :: vs, tl, h => by
    cases hm1 : marshalValue v with
    | none => simp [marshalElemsTail, hm1] at h
    | some hd =>
      cases hm2 : marshalElemsTail vs with
      | none => simp [marshalElemsTail, hm1, hm2] at h
      | some tl2 =>
        simp only [marshalElemsTail, hm1, hm2, Option.some_inj] at h
        have h1 := jsize_le_mlen v hd hm1
        have h2 := jsizeElems_le_tail vs tl2 hm2
        rw [← h]
        simp only [jsizeElems, List.length_cons, List.length_append]
        omega

theorem jsizeFields_le_head : ∀ fs : List (Str × JValue), ∀ body : Str,
    marshalFields fs = some body → jsizeFields fs ≤ body.length + 1
  | [], body, h => by
    simp only [marshalFields, Option.some_inj] at h
    rw [← h]
    decide
  | (k, v) :: fs, body, h => by
    cases hm1 : marshalValue v with
    | none => simp [marshalFields, hm1] at h
    | some mv =>
      cases hm2 : marshalFieldsTail fs with
      | none => simp [marshalFields, hm1, hm2] at h
      | some tl =>
        simp only [marshalFields, hm1, hm2, Option.some_inj] at h
        have h1 := jsize_le_mlen v mv hm1
        have h2 := jsizeFields_le_tail fs tl hm2
        rw [← h]
        simp only [jsizeFields, List.length_append, List.length_cons]
        omega

theorem jsizeFields_le_tail : ∀ fs : List (Str × JValue), ∀ tl : Str,
    marshalFieldsTail fs = some tl → jsizeFields fs ≤ tl.length
  | [], tl, h => by
    simp only [marshalFieldsTail, Option.some_inj] at h
    rw [← h]
    decide
  | (k, v) :: fs, tl, h => by
    cases hm1 : marshalValue v with
    | none => simp [marshalFieldsTail, hm1] at h
    | some mv =>
      cases hm2 : marshalFieldsTail fs with
      | none => simp [marshalFieldsTail, hm1, hm2] at h
      | some tl2 =>
        simp only [marshalFieldsTail, hm1, hm2, Option.some_inj] at h
        have h1 := jsize_le_mlen v mv hm1
        have h2 := jsizeFields_le_tail fs tl2 hm2
        rw [← h]
        simp only [jsizeFields, List.length_append, List.length_cons]
        omega

end

/-! The round-trip: parsing re-reads exactly what the marshaller wrote. The
three statements recurse on the parser fuel. -/

mutual

theorem rt_val : ∀ fuel : Nat, ∀ v : JValue, ∀ out rest : Str,
    marshalValue v = some out → jsizeVal v ≤ fuel → headSafe rest →
    parseVal fuel (out ++ rest) = some (v, rest)
  | 0, v, out, rest, hm, hs, hr => by
    have := jsizeVal_pos v
    omega
  | fuel + 1, v, out, rest, hm, hs, hr => by
    cases v with
    | null =>
      simp only [marshalValue, Option.some_inj] at hm
      rw [← hm]
      exact parseVal_null fuel rest
    | bool b =>
      cases b <;> simp only [marshalValue, Option.some_inj] at hm <;> rw [← hm]
      · exact parseVal_false fuel rest
      · exact parseVal_true fuel rest
    | num i =>
      simp only [marshalValue, Option.some_inj] at hm
      rw [← hm]
      by_cases hi : i < 0
      · have he : intChars i = '-' :: natChars i.natAbs := by
          simp [intChars, hi]
        rw [he, List.cons_append,
          parseVal_number fuel '-' _ (by decide) (by decide) (by decide) (by decide)
            (by decide) (by decide),
          ← List.cons_append, ← he, parseNumber_intChars i rest hr]
      · have he : intChars i = natChars i.natAbs := by
          simp [intChars, hi]
        obtain ⟨c, t, hct, hcd⟩ := natChars_cons i.natAbs
        have hnd := isDigit_not_marker c hcd
        rw [he, hct, List.cons_append,
          parseVal_number fuel c _ hnd.1 hnd.2.1 hnd.2.2.1 hnd.2.2.2.1
            hnd.2.2.2.2.1 hnd.2.2.2.2.2.1,
          ← List.cons_append, ← hct, ← he, parseNumber_intChars i rest hr]
    | str s =>
      simp only [marshalValue, Option.some_inj] at hm
      rw [← hm, quoteChars, List.cons_append, List.append_assoc,
        List.singleton_append, parseVal_quote, parseStringBody_escape s rest]
      rfl
    | arr vs =>
      cases hme : marshalElems vs with
      | none => simp [marshalValue, hme] at hm
      | some body =>
        simp only [marshalValue, hme, Option.some_inj] at hm
        rw [← hm, List.cons_append, List.append_assoc, List.singleton_append]
        cases vs with
        | nil =>
          simp only [marshalElems, Option.some_inj] at hme
          rw [← hme]
          exact parseVal_arr_nil fuel rest
        | cons v2 vs2 =>
          cases hm1 : marshalValue v2 with
          | none => simp [marshalElems, hm1] at hme
          | some hd =>
            cases hm2 : marshalElemsTail vs2 with
            | none => simp [marshalElems, hm1, hm2] at hme
            | some tl =>
              simp only [marshalElems, hm1, hm2, Option.some_inj] at hme
              have hsz : jsizeElems (v2 :: vs2) ≤ fuel := by
                simp only [jsizeVal] at hs
                omega
              obtain ⟨c, t, hct, hnc, -⟩ := marshal_head v2 hd hm1
              rw [← hme, List.append_assoc, hct, List.cons_append,
                parseVal_arr_cons fuel c _ hnc, ← List.cons_append, ← hct,
                rt_elems fuel v2 vs2 hd tl rest hm1 hm2 hsz hr]
              rfl
    | obj fs =>
      cases hmf : marshalFields fs with
      | none => simp [marshalValue, hmf] at hm
      | some body =>
        simp only [marshalValue, hmf, Option.some_inj] at hm
        rw [← hm, List.cons_append, List.append_assoc, List.singleton_append]
        cases fs with
        | nil =>
          simp only [marshalFields, Option.some_inj] at hmf
          rw [← hmf]
          exact parseVal_obj_nil fuel rest
        | cons kv fs2 =>
          obtain ⟨k, v2⟩ := kv
          cases hm1 : marshalValue v2 with
          | none => simp [marshalFields, hm1] at hmf
          | some mv =>
            cases hm2 : marshalFieldsTail fs2 with
            | none => simp [marshalFields, hm1, hm2] at hmf
            | some tl =>
              simp only [marshalFields, hm1, hm2, Option.some_inj] at hmf
              have hsz : jsizeFields ((k, v2) :: fs2) ≤ fuel := by
                simp only [jsizeVal] at hs
                omega
              rw [← hmf, List.append_assoc, List.cons_append, List.append_assoc,
                quoteChars, List.cons_append,
                parseVal_obj_cons fuel '"' _ (by decide), ← List.cons_append,
                ← quoteChars,
                rt_members fuel k v2 fs2 mv tl rest hm1 hm2 hsz hr]
              rfl
    | unser d => simp [marshalValue] at hm

theorem rt_elems : ∀ fuel : Nat, ∀ v : JValue, ∀ vs : List JValue,
    ∀ hd tl rest : Str, marshalValue v = some hd → marshalElemsTail vs = some tl →
    jsizeElems (v :: vs) ≤ fuel → headSafe rest →
    parseElems fuel (hd ++ (tl ++ (']' :: rest))) = some (v :: vs, rest)
  | 0, v, vs, hd, tl, rest, hm1, hm2, hs, hr => by
    simp only [jsizeElems] at hs
    have := jsizeVal_pos v
    omega
  | fuel + 1, v, vs, hd, tl, rest, hm1, hm2, hs, hr => by
    have hszv : jsizeVal v ≤ fuel := by
      simp only [jsizeElems] at hs
      omega
    have hsafe : headSafe (tl ++ ']' :: rest) :=
      headSafe_elemsTail vs tl hm2 ']' (by decide) rest
    conv_lhs => rw [parseElems.eq_def]
    simp only [rt_val fuel v hd (tl ++ ']' :: rest) hm1 hszv hsafe]
    cases vs with
    | nil =>
      simp only [marshalElemsTail, Option.some_inj] at hm2
      rw [← hm2]
      simp
    | cons v2 vs2 =>
      cases hm1b : marshalValue v2 with
      | none => simp [marshalElemsTail, hm1b] at hm2
      | some hd2 =>
        cases hm2b : marshalElemsTail vs2 with
        | none => simp [marshalElemsTail, hm1b, hm2b] at hm2
        | some tl2 =>
          simp only [marshalElemsTail, hm1b, hm2b, Option.some_inj] at hm2
          have hsz2 : jsizeElems (v2 :: vs2) ≤ fuel := by
            simp only [jsizeElems] at hs ⊢
            omega
          rw [← hm2, List.cons_append, List.append_assoc]
          simp [rt_elems fuel v2 vs2 hd2 tl2 rest hm1b hm2b hsz2 hr]

theorem rt_members : ∀ fuel : Nat, ∀ k : Str, ∀ v : JValue,
    ∀ fs : List (Str × JValue), ∀ mv tl rest : Str,
    marshalValue v = some mv → marshalFieldsTail fs = some tl →
    jsizeFields ((k, v) :: fs) ≤ fuel → headSafe rest →
    parseMembers fuel (quoteChars k ++ (':' :: (mv ++ (tl ++ ('\x7d' :: rest)))))
      = some ((k, v) :: fs, rest)
  | 0, k, v, fs, mv, tl, rest, hm1, hm2, hs, hr => by
    simp only [jsizeFields] at hs
    have := jsizeVal_pos v
    omega
  | fuel + 1, k, v, fs, mv, tl, rest, hm1, hm2, hs, hr => by
    have hszv : jsizeVal v ≤ fuel := by
      simp only [jsizeFields] at hs
      omega
    have hsafe : headSafe (tl ++ '\x7d' :: rest) :=
      headSafe_fieldsTail fs tl hm2 '\x7d' (by decide) rest
    show parseMembers (fuel + 1)
        ('"' :: ((escapeChars k ++ ['"'])
          ++ (':' :: (mv ++ (tl ++ ('\x7d' :: rest)))))) = _
    conv_lhs => rw [parseMembers.eq_def]
    rw [List.append_assoc, List.singleton_append]
    simp only [parseStringBody_escape k (':' :: (mv ++ (tl ++ ('\x7d' :: rest))))]
    simp only [rt_val fuel v mv (tl ++ '\x7d' :: rest) hm1 hszv hsafe]
    cases fs with
    | nil =>
      simp only [marshalFieldsTail, Option.some_inj] at hm2
      rw [← hm2]
      simp
    | cons kv fs2 =>
      obtain ⟨k2, v2⟩ := kv
      cases hm1b : marshalValue v2 with
      | none => simp [marshalFieldsTail, hm1b] at hm2
      | some mv2 =>
        cases hm2b : marshalFieldsTail fs2 with
        | none => simp [marshalFieldsTail, hm1b, hm2b] at hm2
        | some tl2 =>
          simp only [marshalFieldsTail, hm1b, hm2b, Option.some_inj] at hm2
          have hsz2 : jsizeFields ((k2, v2) :: fs2) ≤ fuel := by
            simp only [jsizeFields] at hs ⊢
            omega
          rw [← hm2, List.cons_append, List.append_assoc, List.cons_append,
            List.append_assoc]
          simp [rt_members fuel k2 v2 fs2 mv2 tl2 rest hm1b hm2b hsz2 hr]

end

/-- The codec law `RedactBody` relies on: `json.Unmarshal` inverts
`json.Marshal` on every value the marshaller accepts. -/
theorem unmarshal_marshalValue (v : JValue) (out : Str)
    (h : marshalValue v = some out) : unmarshal out = some v := by
  have hb : jsizeVal v ≤ out.length + 1 := by
    have := jsize_le_mlen v out h
    omega
  have h1 : parseVal (out.length + 1) (out ++ []) = some (v, []) :=
    rt_val (out.length + 1) v out [] h hb trivial
  rw [List.append_nil] at h1
  unfold unmarshal
  rw [h1]

/-- `RedactBody` is idempotent: a failure branch returns the input unchanged,
and on the success branch the redacted output parses back to the redacted
value, which a second redaction fixes. -/
theorem redactBody_idem (r : Redactor) (b : Str) :
    redactBody r (redactBody r b) = redactBody r b := by
  by_cases he : r.enabled = false
  · simp [redactBody, he]
  · by_cases hb : b = []
    · simp [redactBody, hb]
    · cases hu : unmarshal b with
      | none =>
        have hbb : redactBody r b = b := by simp [redactBody, he, hb, hu]
        rw [hbb, hbb]
      | some d =>
        cases hm : marshalValue (redactValue r d) with
        | none =>
          have hbb : redactBody r b = b := by simp [redactBody, he, hb, hu, hm]
          rw [hbb, hbb]
        | some out =>
          have hbb : redactBody r b = out := by simp [redactBody, he, hb, hu, hm]
          rw [hbb]
          have hnn : ¬ out = [] := marshal_ne_nil (redactValue r d) out hm
          have hu2 : unmarshal out = some (redactValue r d) :=
            unmarshal_marshalValue (redactValue r d) out hm
          have hm2 : marshalValue (redactValue r (redactValue r d)) = some out := by
            rw [redactValue_idem r d]
            exact hm
          simp [redactBody, he, hnn, hu2, hm2]

/-- Claim C10 witness: closing a never-opened pair on a fresh store is a
no-op without error. -/
theorem c10_witness :
    lookupA (fileManagerNew 8192 100).files (fileKey "tab-1" "example.com") = none ∧
      fmCloseTab (fileManagerNew 8192 100) "tab-1" "example.com" =
        (fileManagerNew 8192 100, none) :=
  ⟨rfl, (c10_closeTab_absent_noop_idempotent (fileManagerNew 8192 100)
    "tab-1" "example.com").1 rfl⟩

/-- Claim C8: both redaction operations are idempotent — for every header map
`RedactHeaders (RedactHeaders m) = RedactHeaders m` and for every body string
`RedactBody (RedactBody s) = RedactBody s` — and when the redactor is disabled
both operations are the identity on their input. -/
theorem c8_redaction_idempotent_disabled_identity (r : Redactor) :
    (∀ h : Option (List (String × JValue)),
        redactHeaders r (redactHeaders r h) = redactHeaders r h) ∧
    (∀ b : Str, redactBody r (redactBody r b) = redactBody r b) ∧
    (r.enabled = false →
      (∀ h : Option (List (String × JValue)), redactHeaders r h = h) ∧
      (∀ b : Str, redactBody r b = b)) :=
  ⟨redactHeaders_idem r, redactBody_idem r, fun he =>
    ⟨fun h => redactHeaders_disabled r h he, fun b => redactBody_disabled r b he⟩⟩

/-- Claim C8 witness: a disabled redactor returns a cookie-bearing header map
unchanged. -/
theorem c8_witness :
    redactHeaders (redactorNew false) (some [("Cookie", JValue.str "s=1".toList)])
      = some [("Cookie", JValue.str "s=1".toList)] :=
  ((c8_redaction_idempotent_disabled_identity (redactorNew false)).2.2 rfl).1
    (some [("Cookie", JValue.str "s=1".toList)])

end BrowserTail
